/-
Verification of the PinSaver ingestion and deduplication pipeline.

Shallow embedding of the Python sources:
  src/models.py             (SQLite pins table, guarded insert)
  src/parser.py             (URL/file-id extraction, date parsing, HTML pin
                             extraction, snapshot directory scan)
  src/importer.py           (bulk import pipeline with per-snapshot commits)
  src/migrate_duplicates.py (duplicate consolidation pass)
  src/server.py             (single-pin add endpoint)

Strings are modelled as Lean `String` (lists of characters); the regular
expressions of the Python code are implemented as deterministic scanners,
which agree with `re.search` here because every quantifier in the patterns
is either of exact count or final-and-greedy, so no backtracking ambiguity
exists.
-/
import Mathlib

/-! ### Character classes used by the regular expressions -/

/-- `[a-f0-9]`: one lowercase hexadecimal character. -/
def isHexLower (c : Char) : Bool :=
  (('a' ≤ c) && (c ≤ 'f')) || (('0' ≤ c) && (c ≤ '9'))

/-- `\w`: a word character (modelled over ASCII as alphanumeric or underscore). -/
def isWordChar (c : Char) : Bool :=
  c.isAlphanum || c == '_'

/-! ### Deterministic scanning primitives -/

/-- Consume a literal character sequence; return the remainder on success. -/
def expectSeq : List Char → List Char → Option (List Char)
  | [], l => some l
  | _ :: _, [] => none
  | c :: cs, x :: l => if x == c then expectSeq cs l else none

/-- Consume one expected character. -/
def expectChar (c : Char) : List Char → Option (List Char)
  | [] => none
  | x :: l => if x == c then some l else none

/-- Consume exactly `n` characters all satisfying `p`;
return the consumed characters and the remainder. -/
def takeExact (p : Char → Bool) : Nat → List Char → Option (List Char × List Char)
  | 0, l => some ([], l)
  | _ + 1, [] => none
  | n + 1, c :: l =>
    if p c then (takeExact p n l).map (fun tr => (c :: tr.1, tr.2)) else none

/-! ### `parser.extract_file_id_from_url`

Python: `re.search(r'/originals/[a-f0-9]{2}/[a-f0-9]{2}/[a-f0-9]{2}/([a-f0-9]{32})\.(\w+)', url)`,
returning `(match.group(1), match.group(2))` or `None`. -/

/-- Attempt the originals-URL pattern anchored at the head of `l`. -/
def matchOriginalsAt (l : List Char) : Option (String × String) := do
  let l ← expectSeq "/originals/".data l
  let (_, l) ← takeExact isHexLower 2 l
  let l ← expectChar '/' l
  let (_, l) ← takeExact isHexLower 2 l
  let l ← expectChar '/' l
  let (_, l) ← takeExact isHexLower 2 l
  let l ← expectChar '/' l
  let (fid, l) ← takeExact isHexLower 32 l
  let l ← expectChar '.' l
  let ext := l.takeWhile isWordChar
  if ext.isEmpty then none else some (String.mk fid, String.mk ext)

/-- Scan left to right for the first position where the pattern matches,
as `re.search` does. -/
def searchOriginals : List Char → Option (String × String)
  | [] => none
  | c :: l =>
    match matchOriginalsAt (c :: l) with
    | some r => some r
    | none => searchOriginals l

/-- `parser.extract_file_id_from_url`: extract `(file_id, extension)` from a
Pinterest image URL, or `none`. -/
def extract_file_id_from_url (url : String) : Option (String × String) :=
  searchOriginals url.data

/-! ### `server.py` URL pattern

Python: `re.search(r'/([a-f0-9]{32})\.(\w+)(?:\?|$)', request.original_url)`.
`$` also matches just before a trailing newline; since `?` and `\n` are not
word characters, only the maximal word-character run can be followed by
`?`, end of string, or a final newline, so the scanner below is exact. -/

/-- Attempt the server URL pattern anchored at the head of `l`. -/
def matchServerUrlAt (l : List Char) : Option (String × String) := do
  let l ← expectChar '/' l
  let (fid, l) ← takeExact isHexLower 32 l
  let l ← expectChar '.' l
  let ext := l.takeWhile isWordChar
  let rest := l.dropWhile isWordChar
  if ext.isEmpty then none
  else
    match rest with
    | [] => some (String.mk fid, String.mk ext)
    | ['\n'] => some (String.mk fid, String.mk ext)
    | '?' :: _ => some (String.mk fid, String.mk ext)
    | _ => none

/-- Left-to-right search for the server URL pattern. -/
def searchServerUrl : List Char → Option (String × String)
  | [] => none
  | c :: l =>
    match matchServerUrlAt (c :: l) with
    | some r => some r
    | none => searchServerUrl l

/-- The `file_id`/`extension` extraction performed by `server.add_pin` on
`request.original_url`. -/
def extract_file_id_server (url : String) : Option (String × String) :=
  searchServerUrl url.data

/-! ### `parser.date_string_to_timestamp`

Python: `datetime.strptime(date_str, '%Y%m%d').replace(tzinfo=timezone.utc)`,
then `int(dt.timestamp())`; raises `ValueError` on malformed input, modelled
as `none`.  The model covers the inputs produced by the snapshot scan
(8-character strings); on those, `strptime` splits them as 4+2+2 digits and
validates the calendar date (`year ≥ 1`, month, day-of-month). -/

/-- Gregorian leap-year rule. -/
def isLeapYear (y : Nat) : Bool :=
  y % 4 == 0 && (y % 100 != 0 || y % 400 == 0)

/-- Days in a month of the proleptic Gregorian calendar. -/
def daysInMonth (y m : Nat) : Nat :=
  if m == 2 then (if isLeapYear y then 29 else 28)
  else if m == 4 || m == 6 || m == 9 || m == 11 then 30
  else 31

/-- Decimal digits to a natural number. -/
def digitsToNat (l : List Char) : Nat :=
  l.foldl (fun a c => 10 * a + (c.toNat - '0'.toNat)) 0

/-- Days from 1970-01-01 to year `y`, month `m`, day `d` (valid date, `y ≥ 1`),
via the standard civil-from-days construction. -/
def daysFromCivil (y m d : Nat) : Int :=
  let yy : Nat := y - (if m ≤ 2 then 1 else 0)
  let era : Nat := yy / 400
  let yoe : Nat := yy % 400
  let mp : Nat := if 2 < m then m - 3 else m + 9
  let doy : Nat := (153 * mp + 2) / 5 + d - 1
  let doe : Nat := yoe * 365 + yoe / 4 - yoe / 100 + doy
  (era * 146097 + doe : Int) - 719468

/-- `parser.date_string_to_timestamp`: `YYYYMMDD` string to epoch seconds (UTC),
`none` where Python raises `ValueError`. -/
def date_string_to_timestamp (s : String) : Option Int :=
  let l := s.data
  if l.length == 8 && l.all (·.isDigit) then
    let y := digitsToNat (l.take 4)
    let m := digitsToNat ((l.drop 4).take 2)
    let d := digitsToNat (l.drop 6)
    if 1 ≤ y && 1 ≤ m && m ≤ 12 && 1 ≤ d && d ≤ daysInMonth y m then
      some (86400 * daysFromCivil y m d)
    else none
  else none

/-! ### `models.py`: the pins table -/

/-- `models.Pin`: the record handed to `insert_pin` (the surrogate `id` is
assigned by the store; the Python dataclass default for `rating` is 0). -/
structure Pin where
  pin_id : String
  file_id : String
  file_extension : String
  pinterest_url : String
  original_url : String
  source_date : Int
  rating : Int := 0
deriving Repr, DecidableEq

/-- One row of the `pins` table. -/
structure Row where
  id : Nat
  pin_id : String
  file_id : String
  file_extension : String
  pinterest_url : String
  original_url : String
  source_date : Int
  rating : Int
deriving Repr, DecidableEq

/-- The `pins` table: rows in insertion order plus the `AUTOINCREMENT`
counter for the next surrogate id. -/
structure Db where
  rows : List Row
  nextId : Nat
deriving Repr, DecidableEq

/-- `models.pin_exists`: `SELECT 1 FROM pins WHERE pin_id = ?`. -/
def pin_exists (db : Db) (pid : String) : Bool :=
  db.rows.any (fun r => r.pin_id == pid)

/-- `models.insert_pin`: guarded insert; returns the new store and the
inserted/skipped flag. -/
def insert_pin (db : Db) (p : Pin) : Db × Bool :=
  if pin_exists db p.pin_id then (db, false)
  else
    let newRow : Row :=
      { id := db.nextId
        pin_id := p.pin_id
        file_id := p.file_id
        file_extension := p.file_extension
        pinterest_url := p.pinterest_url
        original_url := p.original_url
        source_date := p.source_date
        rating := p.rating }
    ({ rows := db.rows ++ [newRow], nextId := db.nextId + 1 }, true)

/-- `models.get_pin_count`: `SELECT COUNT(*) FROM pins`. -/
def get_pin_count (db : Db) : Nat :=
  db.rows.length

/-- Well-formedness of the store: surrogate ids are distinct and below the
`AUTOINCREMENT` counter (both invariants of SQLite's id assignment). -/
def DbWf (db : Db) : Prop :=
  (db.rows.map (fun r => r.id)).Nodup ∧ ∀ r ∈ db.rows, r.id < db.nextId

/-! ### `parser.parse_html_file`: extraction from one snapshot document -/

/-- `parser.ParsedPin`. -/
structure ParsedPin where
  pin_id : String
  file_id : String
  file_extension : String
  pinterest_url : String
  original_url : String
  source_date : Int
deriving Repr, DecidableEq

/-- Python `str.split(',')`: split at every separator, keeping empty pieces. -/
def splitOnChar (sep : Char) : List Char → List (List Char)
  | [] => [[]]
  | c :: l =>
    match splitOnChar sep l with
    | [] => [[c]]
    | h :: t => if c == sep then [] :: h :: t else (c :: h) :: t

/-- Python `str.strip()`. -/
def trimChars (l : List Char) : List Char :=
  ((l.dropWhile Char.isWhitespace).reverse.dropWhile Char.isWhitespace).reverse

/-- Does `pat` occur at the head of `l`? -/
def startsWithSeq (pat l : List Char) : Bool :=
  (expectSeq pat l).isSome

/-- Python `pat in s`: substring containment. -/
def containsSeq (pat : List Char) : List Char → Bool
  | [] => pat.isEmpty
  | c :: l => startsWithSeq pat (c :: l) || containsSeq pat l

/-- Python `part.split()[0]`: the first maximal whitespace-free run
(nonempty whenever `part` holds a non-whitespace character). -/
def firstToken (l : List Char) : List Char :=
  (l.dropWhile Char.isWhitespace).takeWhile (fun c => !c.isWhitespace)

/-- The srcset candidate loop of `parse_html_file`: over the comma-separated
parts, find the first stripped part containing `/originals/` whose first
token yields a file id; return `(file_id, extension, original_url)`. -/
def findFileInfo : List (List Char) → Option (String × String × String)
  | [] => none
  | p :: rest =>
    let q := trimChars p
    if containsSeq "/originals/".data q then
      let url := firstToken q
      match extract_file_id_from_url (String.mk url) with
      | some fe => some (fe.1, fe.2, String.mk url)
      | none => findFileInfo rest
    else findFileInfo rest

/-- One markup element as seen by the extraction loop: the value of its
`data-test-pin-id` attribute (`none` when absent), and the `srcset` values of
its `<img srcset=...>` descendants in document order (`find` takes the first). -/
structure Element where
  pinIdAttr : Option String
  imgSrcsets : List String
deriving Repr, DecidableEq

/-- The body of the extraction loop for one element: `none` exactly when the
element is skipped (no pin-id marker, empty marker, no image with `srcset`,
or no usable `originals` candidate). -/
def extractElement (source_date : Int) (e : Element) : Option ParsedPin :=
  match e.pinIdAttr with
  | none => none
  | some pid =>
    if pid == "" then none
    else
      match e.imgSrcsets.head? with
      | none => none
      | some srcset =>
        match findFileInfo (splitOnChar ',' srcset.data) with
        | none => none
        | some fi =>
          some { pin_id := pid
                 file_id := fi.1
                 file_extension := fi.2.1
                 pinterest_url := "https://pinterest.com/pin/" ++ pid ++ "/"
                 original_url := fi.2.2
                 source_date := source_date }

/-- The `pins_data` accumulation loop of `parse_html_file`: extracted pins in
document order. -/
def collectPins (ts : Int) (doc : List Element) : List ParsedPin :=
  doc.foldl (fun acc e =>
    match extractElement ts e with
    | some p => acc ++ [p]
    | none => acc) []

/-- `parser.parse_html_file`: resolve the source date (from the parent folder
name when not supplied; `none` models the `ValueError` escaping from
`date_string_to_timestamp`), then yield the extracted pins in reverse order. -/
def parse_html_file (folderName : String) (source_date : Option Int)
    (doc : List Element) : Option (List ParsedPin) :=
  match (match source_date with
         | some ts => some ts
         | none => date_string_to_timestamp folderName) with
  | none => none
  | some ts => some (collectPins ts doc).reverse

/-! ### `parser.get_html_files`: the snapshot scan -/

/-- A directory entry of the base directory: its name, whether it is a
directory, and the names of its `*.html` files (glob order). -/
structure DirEntry where
  name : String
  isDir : Bool
  htmlFiles : List String
deriving Repr, DecidableEq

/-- Python `re.match(r'^\d{8}$', name)`: eight digits (`$` also accepts one
trailing newline). -/
def matchesDateDir (s : String) : Bool :=
  let l := s.data
  (l.length == 8 && l.all (·.isDigit)) ||
    (l.length == 9 && (l.take 8).all (·.isDigit) && l.getLast? == some '\n')

/-- `parser.get_html_files`: over the base entries in sorted name order, keep
date-pattern directories (excluding `originals` and `src`), collect their html
files, and sort the result by parent folder name.  Returns
`(folder name, file name)` pairs; the scan performs no date validation.
`scanStep` is the loop body: skip non-directories, the reserved names, and
names not matching the date pattern; otherwise collect the folder's files. -/
def scanStep (acc : List (String × String)) (folder : DirEntry) : List (String × String) :=
  if !folder.isDir then acc
  else if folder.name == "originals" || folder.name == "src" then acc
  else if !matchesDateDir folder.name then acc
  else acc ++ folder.htmlFiles.map (fun f => (folder.name, f))

/-- `parser.get_html_files`; see `scanStep`. -/
def get_html_files (base : List DirEntry) : List (String × String) :=
  let sortedEntries := List.insertionSort (fun a b : DirEntry => a.name ≤ b.name) base
  let files := sortedEntries.foldl scanStep []
  List.insertionSort (fun a b : String × String => a.1 ≤ b.1) files

/-! ### `importer.import_pins` -/

/-- The contents of the `originals/` media directory: `(file_id, extension)`
pairs of the files present. -/
abbrev Originals := List (String × String)

/-- `importer.file_exists_in_originals`. -/
def file_exists_in_originals (orig : Originals) (fid ext : String) : Bool :=
  orig.any (fun fe => fe.1 == fid && fe.2 == ext)

/-- The statistics dictionary of `import_pins`. -/
structure Stats where
  html_files_processed : Nat := 0
  pins_found : Nat := 0
  pins_imported : Nat := 0
  pins_skipped_duplicate : Nat := 0
  pins_skipped_no_file : Nat := 0
  total_pins_in_db : Nat := 0
deriving Repr, DecidableEq

/-- One event produced while processing a snapshot: a parsed pin, or a fatal
extraction/storage failure raised at that point of the iteration. -/
inductive Item where
  | pin (p : ParsedPin)
  | err
deriving Repr, DecidableEq

/-- The `Pin` constructed by the import loop from a `ParsedPin`
(`rating` left at its default 0). -/
def pinOf (p : ParsedPin) : Pin :=
  { pin_id := p.pin_id
    file_id := p.file_id
    file_extension := p.file_extension
    pinterest_url := p.pinterest_url
    original_url := p.original_url
    source_date := p.source_date }

/-- The per-pin body of the import loop: count the candidate, then either
skip it for missing media, or attempt the guarded insert. -/
def processPin (orig : Originals) (db : Db) (st : Stats) (p : ParsedPin) : Db × Stats :=
  let st := { st with pins_found := st.pins_found + 1 }
  if !file_exists_in_originals orig p.file_id p.file_extension then
    (db, { st with pins_skipped_no_file := st.pins_skipped_no_file + 1 })
  else
    let r := insert_pin db (pinOf p)
    if r.2 then (r.1, { st with pins_imported := st.pins_imported + 1 })
    else (r.1, { st with pins_skipped_duplicate := st.pins_skipped_duplicate + 1 })

/-- Process the events of one snapshot inside the open transaction; a failure
aborts the snapshot (`none`), discarding its uncommitted inserts. -/
def processSnapshot (orig : Originals) : Db → Stats → List Item → Option (Db × Stats)
  | db, st, [] => some (db, st)
  | _, _, .err :: _ => none
  | db, st, .pin p :: rest =>
    let r := processPin orig db st p
    processSnapshot orig r.1 r.2 rest

/-- The snapshot loop of `import_pins`: the first component is always the
committed store (`conn.commit()` runs after each snapshot); an aborted run
returns the store as of the last commit and no statistics (the exception
propagates). -/
def runImport (orig : Originals) : Db → Stats → List (List Item) → Db × Option Stats
  | committed, st, [] =>
    (committed, some { st with total_pins_in_db := get_pin_count committed })
  | committed, st, s :: rest =>
    match processSnapshot orig committed
        { st with html_files_processed := st.html_files_processed + 1 } s with
    | none => (committed, none)
    | some r => runImport orig r.1 r.2 rest

/-- `importer.import_pins` over the event sequences extracted from the
snapshots in scan order. -/
def import_pins (orig : Originals) (db : Db) (snaps : List (List Item)) :
    Db × Option Stats :=
  runImport orig db {} snaps

/-! ### `migrate_duplicates.migrate_duplicates` -/

/-- The `ORDER BY source_date ASC, id ASC` ordering of the per-group query. -/
def rowRel (a b : Row) : Prop :=
  a.source_date < b.source_date ∨ (a.source_date = b.source_date ∧ a.id ≤ b.id)

instance : DecidableRel rowRel := fun a b =>
  inferInstanceAs (Decidable (a.source_date < b.source_date ∨
    (a.source_date = b.source_date ∧ a.id ≤ b.id)))

instance : IsTotal Row rowRel where
  total a b := by
    rcases lt_trichotomy a.source_date b.source_date with h | h | h
    · exact Or.inl (Or.inl h)
    · rcases Nat.le_total a.id b.id with h2 | h2
      · exact Or.inl (Or.inr ⟨h, h2⟩)
      · exact Or.inr (Or.inr ⟨h.symm, h2⟩)
    · exact Or.inr (Or.inl h)

instance : IsTrans Row rowRel where
  trans a b c hab hbc := by
    rcases hab with h1 | ⟨h1, h1'⟩ <;> rcases hbc with h2 | ⟨h2, h2'⟩
    · exact Or.inl (h1.trans h2)
    · exact Or.inl (h2 ▸ h1)
    · exact Or.inl (h1 ▸ h2)
    · exact Or.inr ⟨h1.trans h2, h1'.trans h2'⟩

/-- The rows holding a given `file_id` (`WHERE file_id = ?`, table order). -/
def rowsOf (db : Db) (f : String) : List Row :=
  db.rows.filter (fun r => r.file_id == f)

/-- The per-group `SELECT ... ORDER BY source_date ASC, id ASC`. -/
def sortRows (l : List Row) : List Row :=
  List.insertionSort rowRel l

/-- The `GROUP BY file_id HAVING cnt > 1` result: the distinct `file_id`
values held by more than one row. -/
def dupFileIds (db : Db) : List String :=
  ((db.rows.map (fun r => r.file_id)).dedup).filter
    (fun f => 1 < (rowsOf db f).length)

/-- A mutation statement issued by the consolidation pass. -/
inductive DbOp where
  | setRating (i : Nat) (r : Int)
  | deleteRow (i : Nat)
deriving Repr, DecidableEq

/-- Execute one `UPDATE pins SET rating = ? WHERE id = ?` or
`DELETE FROM pins WHERE id = ?`. -/
def applyOp (db : Db) : DbOp → Db
  | .setRating i r =>
    { db with rows := db.rows.map (fun x => if x.id == i then { x with rating := r } else x) }
  | .deleteRow i =>
    { db with rows := db.rows.filter (fun x => !(x.id == i)) }

/-- Execute a statement sequence. -/
def applyOps (db : Db) (ops : List DbOp) : Db :=
  ops.foldl applyOp db

/-- The statements issued for one duplicate group: update the rating of the
first row of the sorted group to `old rating + (group size - 1)`, then delete
every other row of the group. -/
def consolidateOps (db : Db) (f : String) : List DbOp :=
  match sortRows (rowsOf db f) with
  | [] => []
  | oldest :: rest =>
    DbOp.setRating oldest.id (oldest.rating + rest.length) ::
      rest.map (fun r => DbOp.deleteRow r.id)

/-- Process one duplicate group against the current store. -/
def consolidateGroup (db : Db) (f : String) : Db :=
  applyOps db (consolidateOps db f)

/-- `migrate_duplicates.migrate_duplicates`: consolidate every duplicate
group (the group list is computed once, up front, from the initial store;
each group is re-queried from the evolving store when its turn comes,
exactly as the Python loop does). -/
def migrate_duplicates (db : Db) : Db :=
  (dupFileIds db).foldl consolidateGroup db

/-- The full statement sequence issued by the migration loop. -/
def migrateOps (db : Db) : List String → List DbOp
  | [] => []
  | f :: fs => consolidateOps db f ++ migrateOps (consolidateGroup db f) fs

/-- A connection-level event: a mutation statement, or `conn.commit()`. -/
inductive Event where
  | op (o : DbOp)
  | commit
deriving Repr, DecidableEq

/-- The event trace of one `migrate_duplicates()` run: with no duplicate
groups the function returns early having issued nothing; otherwise all
statements are issued and a single `commit` follows them. -/
def migrateTrace (db : Db) : List Event :=
  if (dupFileIds db).isEmpty then []
  else (migrateOps db (dupFileIds db)).map Event.op ++ [Event.commit]

/-- Transaction semantics of the connection: state is
`(persisted store, transaction view)`; statements act on the view, `commit`
publishes it. -/
def replayStep (s : Db × Db) : Event → Db × Db
  | .op o => (s.1, applyOp s.2 o)
  | .commit => (s.2, s.2)

/-- Replay an event trace from a persisted store. -/
def replay (db : Db) (evs : List Event) : Db × Db :=
  evs.foldl replayStep (db, db)

/-! ### `server.add_pin` -/

/-- `server.AddPinRequest`. -/
structure AddPinRequest where
  pin_id : String
  original_url : String
deriving Repr, DecidableEq

/-- The outcome of the endpoint: the "exists" response, HTTP 400 for an
unusable URL, HTTP 500 for a failed download, or the "added" response. -/
inductive AddPinStatus where
  | alreadyExists
  | badUrl
  | downloadFailed
  | added
deriving Repr, DecidableEq

/-- `server.add_pin`: refuse when `pin_id` exists; extract
`(file_id, extension)` from the URL; download unless the media file is
already on disk (`downloadOk` models the network outcome); insert the record
with `source_date = now` and commit.  Returns the store, the media
directory contents, and the response. -/
def add_pin (db : Db) (disk : Originals) (downloadOk : Bool) (now : Int)
    (req : AddPinRequest) : Db × Originals × AddPinStatus :=
  if pin_exists db req.pin_id then (db, disk, .alreadyExists)
  else
    match extract_file_id_server req.original_url with
    | none => (db, disk, .badUrl)
    | some fe =>
      let onDisk := disk.any (fun x => x.1 == fe.1 && x.2 == fe.2)
      if !onDisk && !downloadOk then (db, disk, .downloadFailed)
      else
        let disk' := if onDisk then disk else disk ++ [(fe.1, fe.2)]
        let pin : Pin :=
          { pin_id := req.pin_id
            file_id := fe.1
            file_extension := fe.2
            pinterest_url := "https://pinterest.com/pin/" ++ req.pin_id ++ "/"
            original_url := req.original_url
            source_date := now }
        ((insert_pin db pin).1, disk', .added)

/-- The row transformation performed by the group's `UPDATE` statement
(`applyOp` on `setRating`), named for the consolidation proofs. -/
def updRow (oid : Nat) (newR : Int) (x : Row) : Row :=
  if x.id == oid then { x with rating := newR } else x

/-- Survival under the group's `DELETE` statements: the row's id is not among
the deleted rows' ids. -/
def notDeleted (rest : List Row) (x : Row) : Bool :=
  !(rest.any (fun r => x.id == r.id))

/-! ## Theorems -/

/-! ### Store lemmas -/

theorem insert_pin_of_exists {db : Db} {p : Pin}
    (h : pin_exists db p.pin_id = true) : insert_pin db p = (db, false) := by
  simp [insert_pin, h]

theorem insert_pin_rows_of_not_exists {db : Db} {p : Pin}
    (h : pin_exists db p.pin_id = false) :
    (insert_pin db p).1.rows = db.rows ++
      [{ id := db.nextId, pin_id := p.pin_id, file_id := p.file_id,
         file_extension := p.file_extension, pinterest_url := p.pinterest_url,
         original_url := p.original_url, source_date := p.source_date,
         rating := p.rating }] ∧ (insert_pin db p).2 = true := by
  simp [insert_pin, h]

theorem pin_exists_append {rows l : List Row} {n : Nat} {pid : String} :
    pin_exists ⟨rows ++ l, n⟩ pid =
      (pin_exists ⟨rows, n⟩ pid || pin_exists ⟨l, n⟩ pid) := by
  simp [pin_exists]

theorem insert_pin_rows_extend (db : Db) (p : Pin) :
    ∃ l, (insert_pin db p).1.rows = db.rows ++ l := by
  by_cases h : pin_exists db p.pin_id
  · exact ⟨[], by simp [insert_pin_of_exists h]⟩
  · exact ⟨_, (insert_pin_rows_of_not_exists (by simpa using h)).1⟩

/-- Claim C3: `insert_pin` returns false and leaves the store unchanged when
the `pin_id` already exists; otherwise it persists the record with a fresh
surrogate id and the given initial rating and returns true; a second call
with the same `pin_id` is a no-op returning false. -/
theorem c3_insert_contract (db : Db) (p : Pin) (hwf : DbWf db) :
    (pin_exists db p.pin_id = true → insert_pin db p = (db, false)) ∧
    (pin_exists db p.pin_id = false →
      (insert_pin db p).2 = true ∧
      ∃ r : Row, (insert_pin db p).1.rows = db.rows ++ [r] ∧
        r.pin_id = p.pin_id ∧ r.rating = p.rating ∧ r.id = db.nextId ∧
        ∀ x ∈ db.rows, x.id ≠ r.id) ∧
    insert_pin (insert_pin db p).1 p = ((insert_pin db p).1, false) := by
  refine ⟨fun h => insert_pin_of_exists h, fun h => ?_, ?_⟩
  · obtain ⟨hrows, hflag⟩ := insert_pin_rows_of_not_exists h
    exact ⟨hflag, _, hrows, rfl, rfl, rfl,
      fun x hx => Nat.ne_of_lt (hwf.2 x hx)⟩
  · by_cases h : pin_exists db p.pin_id
    · rw [insert_pin_of_exists h]
      exact insert_pin_of_exists h
    · have h' : pin_exists db p.pin_id = false := by simpa using h
      have h2 : pin_exists (insert_pin db p).1 p.pin_id = true := by
        obtain ⟨hrows, -⟩ := insert_pin_rows_of_not_exists h'
        simp [pin_exists, hrows]
      exact insert_pin_of_exists h2

/-- Witness for C3 at a concrete store and record. -/
theorem c3_insert_contract_witness :
    DbWf ⟨[⟨1, "P1", "F1", "jpg", "u", "o", 5, 0⟩], 2⟩ ∧
    ((pin_exists ⟨[⟨1, "P1", "F1", "jpg", "u", "o", 5, 0⟩], 2⟩ "P2" = true →
      insert_pin ⟨[⟨1, "P1", "F1", "jpg", "u", "o", 5, 0⟩], 2⟩
        ⟨"P2", "F2", "jpg", "u2", "o2", 7, 0⟩ =
        (⟨[⟨1, "P1", "F1", "jpg", "u", "o", 5, 0⟩], 2⟩, false)) ∧
    (pin_exists ⟨[⟨1, "P1", "F1", "jpg", "u", "o", 5, 0⟩], 2⟩ "P2" = false →
      (insert_pin ⟨[⟨1, "P1", "F1", "jpg", "u", "o", 5, 0⟩], 2⟩
        ⟨"P2", "F2", "jpg", "u2", "o2", 7, 0⟩).2 = true ∧
      ∃ r : Row,
        (insert_pin ⟨[⟨1, "P1", "F1", "jpg", "u", "o", 5, 0⟩], 2⟩
          ⟨"P2", "F2", "jpg", "u2", "o2", 7, 0⟩).1.rows =
          [⟨1, "P1", "F1", "jpg", "u", "o", 5, 0⟩] ++ [r] ∧
        r.pin_id = "P2" ∧ r.rating = 0 ∧ r.id = 2 ∧
        ∀ x ∈ [(⟨1, "P1", "F1", "jpg", "u", "o", 5, 0⟩ : Row)], x.id ≠ r.id) ∧
    insert_pin (insert_pin ⟨[⟨1, "P1", "F1", "jpg", "u", "o", 5, 0⟩], 2⟩
        ⟨"P2", "F2", "jpg", "u2", "o2", 7, 0⟩).1
        ⟨"P2", "F2", "jpg", "u2", "o2", 7, 0⟩ =
      ((insert_pin ⟨[⟨1, "P1", "F1", "jpg", "u", "o", 5, 0⟩], 2⟩
        ⟨"P2", "F2", "jpg", "u2", "o2", 7, 0⟩).1, false)) :=
  ⟨⟨by decide, by decide⟩,
    c3_insert_contract ⟨[⟨1, "P1", "F1", "jpg", "u", "o", 5, 0⟩], 2⟩
      ⟨"P2", "F2", "jpg", "u2", "o2", 7, 0⟩ ⟨by decide, by decide⟩⟩

/-! ### Claim C4: the pin-count statistic -/

theorem processPin_counters (orig : Originals) (db : Db) (st : Stats) (p : ParsedPin) :
    (processPin orig db st p).2.pins_found = st.pins_found + 1 ∧
    (processPin orig db st p).2.pins_imported +
      (processPin orig db st p).2.pins_skipped_duplicate +
      (processPin orig db st p).2.pins_skipped_no_file =
      st.pins_imported + st.pins_skipped_duplicate + st.pins_skipped_no_file + 1 := by
  unfold processPin
  by_cases h : file_exists_in_originals orig p.file_id p.file_extension
  · simp only [h]
    by_cases h2 : (insert_pin db (pinOf p)).2
    · simp [h2]; omega
    · simp [h2]; omega
  · simp [h]; omega

theorem processSnapshot_counters (orig : Originals) :
    ∀ (s : List Item) (db : Db) (st : Stats) (db' : Db) (st' : Stats),
    processSnapshot orig db st s = some (db', st') →
    st.pins_found = st.pins_imported + st.pins_skipped_duplicate + st.pins_skipped_no_file →
    st'.pins_found = st'.pins_imported + st'.pins_skipped_duplicate + st'.pins_skipped_no_file
  | [], db, st, db', st', h, hinv => by
    simp [processSnapshot] at h
    exact h.2 ▸ hinv
  | .err :: s, db, st, db', st', h, hinv => by
    simp [processSnapshot] at h
  | .pin p :: s, db, st, db', st', h, hinv => by
    simp only [processSnapshot] at h
    have hc := processPin_counters orig db st p
    exact processSnapshot_counters orig s _ _ db' st' h (by omega)

theorem runImport_counters (orig : Originals) :
    ∀ (snaps : List (List Item)) (db : Db) (st : Stats) (st' : Stats),
    (runImport orig db st snaps).2 = some st' →
    st.pins_found = st.pins_imported + st.pins_skipped_duplicate + st.pins_skipped_no_file →
    st'.pins_found = st'.pins_imported + st'.pins_skipped_duplicate + st'.pins_skipped_no_file
  | [], db, st, st', h, hinv => by
    simp only [runImport, Option.some.injEq] at h
    subst h
    exact hinv
  | s :: snaps, db, st, st', h, hinv => by
    simp only [runImport] at h
    cases hps : processSnapshot orig db
        { st with html_files_processed := st.html_files_processed + 1 } s with
    | none => rw [hps] at h; simp at h
    | some r =>
      rw [hps] at h
      exact runImport_counters orig snaps r.1 r.2 st' h
        (processSnapshot_counters orig s _ _ _ _ hps hinv)

/-- Claim C4: for every completed import run, `pins_found` equals
`pins_imported + pins_skipped_duplicate + pins_skipped_no_file` (the last
counter is the implementation's name for the missing-media statistic). -/
theorem c4_pin_count_statistic (orig : Originals) (db : Db)
    (snaps : List (List Item)) (st : Stats)
    (h : (import_pins orig db snaps).2 = some st) :
    st.pins_found =
      st.pins_imported + st.pins_skipped_duplicate + st.pins_skipped_no_file :=
  runImport_counters orig snaps db {} st h rfl

/-- Witness for C4 at a concrete run (one media file present, one pin
missing its media, one duplicate). -/
theorem c4_pin_count_statistic_witness :
    (import_pins [("F1", "jpg")] ⟨[], 1⟩
      [[.pin ⟨"P1", "F1", "jpg", "u1", "o1", 5⟩,
        .pin ⟨"P2", "F2", "jpg", "u2", "o2", 5⟩],
       [.pin ⟨"P1", "F1", "jpg", "u1", "o1", 6⟩]]).2 =
      some { html_files_processed := 2, pins_found := 3, pins_imported := 1,
             pins_skipped_duplicate := 1, pins_skipped_no_file := 1,
             total_pins_in_db := 1 } ∧
    (3 : Nat) = 1 + 1 + 1 :=
  ⟨by decide,
    c4_pin_count_statistic [("F1", "jpg")] ⟨[], 1⟩
      [[.pin ⟨"P1", "F1", "jpg", "u1", "o1", 5⟩,
        .pin ⟨"P2", "F2", "jpg", "u2", "o2", 5⟩],
       [.pin ⟨"P1", "F1", "jpg", "u1", "o1", 6⟩]]
      { html_files_processed := 2, pins_found := 3, pins_imported := 1,
        pins_skipped_duplicate := 1, pins_skipped_no_file := 1,
        total_pins_in_db := 1 } (by decide)⟩

/-! ### Claim C6: extraction order within one document -/

theorem collectPins_foldl (ts : Int) :
    ∀ (doc : List Element) (acc : List ParsedPin),
    doc.foldl (fun acc e =>
      match extractElement ts e with
      | some p => acc ++ [p]
      | none => acc) acc = acc ++ doc.filterMap (extractElement ts)
  | [], acc => by simp
  | e :: doc, acc => by
    cases h : extractElement ts e with
    | none => simp only [List.foldl_cons, List.filterMap_cons, h]
              exact collectPins_foldl ts doc acc
    | some p =>
      simp only [List.foldl_cons, List.filterMap_cons, h]
      rw [collectPins_foldl ts doc (acc ++ [p])]
      simp

theorem collectPins_eq_filterMap (ts : Int) (doc : List Element) :
    collectPins ts doc = doc.filterMap (extractElement ts) := by
  unfold collectPins
  rw [collectPins_foldl]
  simp

/-- Claim C6: for a document with a resolved source date, the produced
sequence is exactly the reverse of the in-document extraction order, where
an element contributes exactly when it has a nonempty pin-id marker, an
image with a `srcset`, and a usable `originals` candidate; skipped elements
contribute nothing (no partial record). -/
theorem c6_extraction_order (folder : String) (ts : Int) (doc : List Element) :
    parse_html_file folder (some ts) doc =
      some ((doc.filterMap (extractElement ts)).reverse) ∧
    (∀ l, extractElement ts ⟨none, l⟩ = none) ∧
    (∀ l, extractElement ts ⟨some "", l⟩ = none) ∧
    (∀ pid, extractElement ts ⟨some pid, []⟩ = none) ∧
    (∀ pid s l, extractElement ts ⟨some pid, s :: l⟩ =
      if pid == "" then none
      else (findFileInfo (splitOnChar ',' s.data)).map (fun fi =>
        { pin_id := pid, file_id := fi.1, file_extension := fi.2.1,
          pinterest_url := "https://pinterest.com/pin/" ++ pid ++ "/",
          original_url := fi.2.2, source_date := ts })) := by
  refine ⟨?_, fun l => rfl, fun l => rfl, fun pid => by simp [extractElement], ?_⟩
  · show some (collectPins ts doc).reverse = _
    rw [collectPins_eq_filterMap]
  · intro pid s l
    by_cases h : pid == ""
    · simp [extractElement, h]
    · simp only [extractElement, List.head?_cons, h, if_false]
      cases hf : findFileInfo (splitOnChar ',' s.data) with
      | none => simp
      | some fi => simp

/-! ### Claim C10: shape of `extract_file_id_from_url` results -/

theorem expectSeq_eq_some :
    ∀ {cs l l' : List Char}, expectSeq cs l = some l' → l = cs ++ l'
  | [], l, l', h => by
    simp only [expectSeq, Option.some.injEq] at h
    simp [h]
  | c :: cs, [], l', h => by simp [expectSeq] at h
  | c :: cs, x :: l, l', h => by
    simp only [expectSeq] at h
    by_cases hx : x == c
    · rw [if_pos hx] at h
      have hxc : x = c := beq_iff_eq.mp hx
      subst hxc
      exact congrArg (List.cons x) (expectSeq_eq_some h)
    · rw [if_neg hx] at h
      exact Option.noConfusion h

theorem expectChar_eq_some {c : Char} {l l' : List Char}
    (h : expectChar c l = some l') : l = c :: l' := by
  cases l with
  | nil => simp [expectChar] at h
  | cons x l =>
    simp only [expectChar] at h
    by_cases hx : x == c
    · rw [if_pos hx] at h
      simp only [Option.some.injEq] at h
      have hxc : x = c := beq_iff_eq.mp hx
      subst hxc
      exact congrArg (List.cons x) h
    · rw [if_neg hx] at h
      exact Option.noConfusion h

theorem takeExact_eq_some {p : Char → Bool} :
    ∀ {n : Nat} {l t l' : List Char}, takeExact p n l = some (t, l') →
      l = t ++ l' ∧ t.length = n ∧ ∀ c ∈ t, p c = true
  | 0, l, t, l', h => by
    simp only [takeExact, Option.some.injEq, Prod.mk.injEq] at h
    obtain ⟨h1, h2⟩ := h
    subst h1; subst h2
    simp
  | n + 1, [], t, l', h => by simp [takeExact] at h
  | n + 1, c :: l, t, l', h => by
    simp only [takeExact] at h
    by_cases hc : p c
    · rw [if_pos hc] at h
      cases hrec : takeExact p n l with
      | none => rw [hrec] at h; simp at h
      | some tr =>
        rw [hrec] at h
        simp only [Option.map_some', Option.some.injEq, Prod.mk.injEq] at h
        obtain ⟨h1, h2⟩ := h
        obtain ⟨e1, e2, e3⟩ := takeExact_eq_some hrec
        subst h2
        rw [← h1]
        refine ⟨by rw [e1]; simp, by simp [e2], ?_⟩
        intro x hx
        rcases List.mem_cons.mp hx with hx | hx
        · exact hx ▸ hc
        · exact e3 x hx
    · rw [if_neg hc] at h
      exact Option.noConfusion h

theorem matchOriginalsAt_eq_some {l : List Char} {fid ext : String}
    (h : matchOriginalsAt l = some (fid, ext)) :
    ∃ a b c rest, l = "/originals/".data ++ a ++ ['/'] ++ b ++ ['/'] ++ c ++
        ['/'] ++ fid.data ++ ['.'] ++ ext.data ++ rest ∧
      a.length = 2 ∧ b.length = 2 ∧ c.length = 2 ∧
      (∀ x ∈ a ++ b ++ c, isHexLower x = true) ∧
      fid.data.length = 32 ∧ (∀ x ∈ fid.data, isHexLower x = true) ∧
      ext.data ≠ [] ∧ (∀ x ∈ ext.data, isWordChar x = true) := by
  unfold matchOriginalsAt at h
  simp only [bind, Option.bind_eq_some] at h
  obtain ⟨l1, h1, h⟩ := h
  obtain ⟨⟨a, l2⟩, h2, h⟩ := h
  obtain ⟨l3, h3, h⟩ := h
  obtain ⟨⟨b, l4⟩, h4, h⟩ := h
  obtain ⟨l5, h5, h⟩ := h
  obtain ⟨⟨c, l6⟩, h6, h⟩ := h
  obtain ⟨l7, h7, h⟩ := h
  obtain ⟨⟨f, l8⟩, h8, h⟩ := h
  obtain ⟨l9, h9, h⟩ := h
  by_cases he : (l9.takeWhile isWordChar).isEmpty
  · rw [if_pos he] at h
    exact Option.noConfusion h
  · rw [if_neg he] at h
    simp only [Option.some.injEq, Prod.mk.injEq] at h
    obtain ⟨hf, hext⟩ := h
    have hfd : fid.data = f := by rw [← hf]
    have hed : ext.data = l9.takeWhile isWordChar := by rw [← hext]
    obtain ⟨ea, ea2, ea3⟩ := takeExact_eq_some h2
    obtain ⟨eb, eb2, eb3⟩ := takeExact_eq_some h4
    obtain ⟨ec, ec2, ec3⟩ := takeExact_eq_some h6
    obtain ⟨ef, ef2, ef3⟩ := takeExact_eq_some h8
    have e3 : l2 = '/' :: l3 := expectChar_eq_some h3
    have e5 : l4 = '/' :: l5 := expectChar_eq_some h5
    have e7 : l6 = '/' :: l7 := expectChar_eq_some h7
    have e9 : l8 = '.' :: l9 := expectChar_eq_some h9
    refine ⟨a, b, c, l9.dropWhile isWordChar, ?_, ea2, eb2, ec2, ?_, ?_, ?_, ?_, ?_⟩
    · rw [expectSeq_eq_some h1, ea, e3, eb, e5, ec, e7, ef, e9, hfd, hed]
      simp [List.takeWhile_append_dropWhile]
    · intro x hx
      rcases List.mem_append.mp hx with hx | hx
      · rcases List.mem_append.mp hx with hx | hx
        · exact ea3 x hx
        · exact eb3 x hx
      · exact ec3 x hx
    · rw [hfd]; exact ef2
    · intro x hx
      rw [hfd] at hx
      exact ef3 x hx
    · rw [hed]
      intro hcontra
      rw [hcontra] at he
      simp at he
    · intro x hx
      rw [hed] at hx
      exact List.mem_takeWhile_imp hx

theorem searchOriginals_eq_some :
    ∀ {l : List Char} {r : String × String}, searchOriginals l = some r →
      ∃ pre suf, l = pre ++ suf ∧ matchOriginalsAt suf = some r
  | [], r, h => by simp [searchOriginals] at h
  | c :: l, r, h => by
    simp only [searchOriginals] at h
    cases hm : matchOriginalsAt (c :: l) with
    | some r' =>
      rw [hm] at h
      simp only [Option.some.injEq] at h
      exact ⟨[], c :: l, by simp, h ▸ hm⟩
    | none =>
      rw [hm] at h
      obtain ⟨pre, suf, hps, hmatch⟩ := searchOriginals_eq_some h
      exact ⟨c :: pre, suf, by simp [hps], hmatch⟩

/-- Claim C10: whenever `extract_file_id_from_url` returns a value, it is a
pair `(file_id, extension)` with `file_id` exactly 32 lowercase hexadecimal
characters taken from a `/originals/xx/xx/xx/` sharded path occurring in the
input, and `extension` a nonempty run of word characters; the function is a
total function of the input (never an exception), and no other result shape
is possible. -/
theorem c10_extract_file_id_shape (url : String) (fid ext : String)
    (h : extract_file_id_from_url url = some (fid, ext)) :
    fid.length = 32 ∧ (∀ c ∈ fid.data, isHexLower c = true) ∧
    1 ≤ ext.length ∧ (∀ c ∈ ext.data, isWordChar c = true) ∧
    ∃ pre a b c post,
      url.data = pre ++ "/originals/".data ++ a ++ ['/'] ++ b ++ ['/'] ++ c ++
        ['/'] ++ fid.data ++ ['.'] ++ ext.data ++ post ∧
      a.length = 2 ∧ b.length = 2 ∧ c.length = 2 ∧
      ∀ x ∈ a ++ b ++ c, isHexLower x = true := by
  obtain ⟨pre, suf, hps, hmatch⟩ := searchOriginals_eq_some h
  obtain ⟨a, b, c, rest, hdec, ha, hb, hc, hhex, hflen, hfhex, hene, hew⟩ :=
    matchOriginalsAt_eq_some hmatch
  refine ⟨hflen, hfhex, ?_, hew, pre, a, b, c, rest, ?_, ha, hb, hc, hhex⟩
  · show 1 ≤ ext.data.length
    cases hx : ext.data with
    | nil => exact absurd hx hene
    | cons y ys => simp
  · rw [hps, hdec]
    simp

/-- Witness for C10 at the documented example URL. -/
theorem c10_extract_file_id_shape_witness :
    extract_file_id_from_url
      "https://i.pinimg.com/originals/7d/76/f6/7d76f602472b7acfb27cdbf4dae02489.jpg" =
      some ("7d76f602472b7acfb27cdbf4dae02489", "jpg") ∧
    ("7d76f602472b7acfb27cdbf4dae02489" : String).length = 32 ∧
    (∀ c ∈ ("7d76f602472b7acfb27cdbf4dae02489" : String).data, isHexLower c = true) ∧
    1 ≤ ("jpg" : String).length ∧
    (∀ c ∈ ("jpg" : String).data, isWordChar c = true) ∧
    ∃ pre a b c post,
      ("https://i.pinimg.com/originals/7d/76/f6/7d76f602472b7acfb27cdbf4dae02489.jpg" : String).data =
        pre ++ "/originals/".data ++ a ++ ['/'] ++ b ++ ['/'] ++ c ++
        ['/'] ++ ("7d76f602472b7acfb27cdbf4dae02489" : String).data ++ ['.'] ++
        ("jpg" : String).data ++ post ∧
      a.length = 2 ∧ b.length = 2 ∧ c.length = 2 ∧
      ∀ x ∈ a ++ b ++ c, isHexLower x = true :=
  ⟨by decide,
    c10_extract_file_id_shape
      "https://i.pinimg.com/originals/7d/76/f6/7d76f602472b7acfb27cdbf4dae02489.jpg"
      "7d76f602472b7acfb27cdbf4dae02489" "jpg" (by decide)⟩

/-! ### Claim C5: malformed date-named directories and the scan -/

theorem mem_foldl_scanStep_of_mem :
    ∀ (entries : List DirEntry) (acc : List (String × String)) (x : String × String),
    x ∈ acc → x ∈ entries.foldl scanStep acc
  | [], acc, x, hx => hx
  | g :: entries, acc, x, hx => by
    refine mem_foldl_scanStep_of_mem entries (scanStep acc g) x ?_
    unfold scanStep
    split
    · exact hx
    · split
      · exact hx
      · split
        · exact hx
        · exact List.mem_append_left _ hx

theorem mem_foldl_scanStep :
    ∀ (entries : List DirEntry) (acc : List (String × String))
      (e : DirEntry) (f : String),
    e ∈ entries → e.isDir = true →
    (e.name == "originals" || e.name == "src") = false →
    matchesDateDir e.name = true → f ∈ e.htmlFiles →
    (e.name, f) ∈ entries.foldl scanStep acc
  | [], _, e, f, he, _, _, _, _ => absurd he (List.not_mem_nil e)
  | g :: entries, acc, e, f, he, hdir, hres, hname, hf => by
    rcases List.mem_cons.mp he with he | he
    · subst he
      refine mem_foldl_scanStep_of_mem entries _ _ ?_
      unfold scanStep
      rw [hdir, hres, hname]
      simp only [Bool.not_true, Bool.false_eq_true, if_false, if_true]
      exact List.mem_append_right _ (List.mem_map.mpr ⟨f, hf, rfl⟩)
    · exact mem_foldl_scanStep entries (scanStep acc g) e f he hdir hres hname hf

/-- Claim C5 counterexample: a base directory whose only entry is the
directory `20261340` (matches the 8-digit pattern, month 13 — not a valid
calendar date).  The scan does not fail: it succeeds and even lists the
directory's document.  The date error only appears when the document is
parsed. -/
theorem c5_scan_counterexample :
    get_html_files [⟨"20261340", true, ["feed.html"]⟩] =
      [("20261340", "feed.html")] ∧
    matchesDateDir "20261340" = true ∧
    date_string_to_timestamp "20261340" = none ∧
    parse_html_file "20261340" none [] = none :=
  ⟨by decide, by decide, by decide, rfl⟩

/-- Claim C5, amended: a directory whose name matches the 8-digit pattern but
is not a valid calendar date passes the snapshot scan (its documents are
returned), and the fatal parse error is deferred to per-document extraction,
where the source date is derived from the folder name. -/
theorem c5_amended_deferred_date_error (base : List DirEntry) (e : DirEntry)
    (f : String) (doc : List Element)
    (he : e ∈ base) (hdir : e.isDir = true)
    (hname : matchesDateDir e.name = true)
    (hbad : date_string_to_timestamp e.name = none)
    (hf : f ∈ e.htmlFiles) :
    (e.name, f) ∈ get_html_files base ∧
    parse_html_file e.name none doc = none := by
  constructor
  · have hres : (e.name == "originals" || e.name == "src") = false := by
      by_cases h1 : e.name = "originals"
      · rw [h1] at hname
        exact absurd hname (by decide)
      · by_cases h2 : e.name = "src"
        · rw [h2] at hname
          exact absurd hname (by decide)
        · simp [h1, h2]
    unfold get_html_files
    refine (List.mem_insertionSort _).mpr ?_
    refine mem_foldl_scanStep _ [] e f ?_ hdir hres hname hf
    exact (List.mem_insertionSort _).mpr he
  · unfold parse_html_file
    rw [hbad]

/-- Witness for the amended C5 at the concrete base of the counterexample. -/
theorem c5_amended_deferred_date_error_witness :
    ((⟨"20261340", true, ["feed.html"]⟩ : DirEntry) ∈
        [(⟨"20261340", true, ["feed.html"]⟩ : DirEntry)] ∧
      (⟨"20261340", true, ["feed.html"]⟩ : DirEntry).isDir = true ∧
      matchesDateDir "20261340" = true ∧
      date_string_to_timestamp "20261340" = none ∧
      "feed.html" ∈ (⟨"20261340", true, ["feed.html"]⟩ : DirEntry).htmlFiles) ∧
    (("20261340", "feed.html") ∈
        get_html_files [⟨"20261340", true, ["feed.html"]⟩] ∧
      parse_html_file "20261340" none [] = none) :=
  ⟨⟨by decide, by decide, by decide, by decide, by decide⟩,
    c5_amended_deferred_date_error [⟨"20261340", true, ["feed.html"]⟩]
      ⟨"20261340", true, ["feed.html"]⟩ "feed.html" []
      (by decide) (by decide) (by decide) (by decide) (by decide)⟩

/-! ### Claim C7: the single-pin insert endpoint and `file_id` -/

/-- Claim C7 counterexample: the store already holds `P1` with file id
`7d76…89`, the media file is on disk, and a request for a different pin id
`P2` resolving to the same file id is **added**, leaving two records with
that `file_id` — `add_pin` performs no pre-check against an existing
`file_id` in the store. -/
theorem c7_no_file_id_precheck_counterexample :
    (add_pin ⟨[⟨1, "P1", "7d76f602472b7acfb27cdbf4dae02489", "jpg", "u", "o", 100, 0⟩], 2⟩
        [("7d76f602472b7acfb27cdbf4dae02489", "jpg")] true 999
        ⟨"P2", "https://x/7d76f602472b7acfb27cdbf4dae02489.jpg"⟩).2.2 =
      AddPinStatus.added ∧
    ((add_pin ⟨[⟨1, "P1", "7d76f602472b7acfb27cdbf4dae02489", "jpg", "u", "o", 100, 0⟩], 2⟩
        [("7d76f602472b7acfb27cdbf4dae02489", "jpg")] true 999
        ⟨"P2", "https://x/7d76f602472b7acfb27cdbf4dae02489.jpg"⟩).1.rows.filter
      (fun x => x.file_id == "7d76f602472b7acfb27cdbf4dae02489")).length = 2 :=
  ⟨by decide, by decide⟩

/-- Claim C7, amended: `add_pin` enforces the `pin_id` uniqueness contract but
performs **no** pre-check against an existing `file_id` in the store: a
request whose extracted `file_id` already belongs to a stored record is still
inserted, producing a second record with that `file_id`; the only
`file_id`-related test is presence of the media file on disk, which merely
skips the download. -/
theorem c7_amended_no_file_id_precheck (db : Db) (disk : Originals)
    (dl : Bool) (now : Int) (req : AddPinRequest) (fid ext : String) (r : Row)
    (hpin : pin_exists db req.pin_id = false)
    (hurl : extract_file_id_server req.original_url = some (fid, ext))
    (hdisk : (fid, ext) ∈ disk)
    (hr : r ∈ db.rows) (hfid : r.file_id = fid) :
    (add_pin db disk dl now req).2.2 = AddPinStatus.added ∧
    (∃ nr : Row, (add_pin db disk dl now req).1.rows = db.rows ++ [nr] ∧
      nr.pin_id = req.pin_id ∧ nr.file_id = fid) ∧
    1 < ((add_pin db disk dl now req).1.rows.filter
          (fun x => x.file_id == fid)).length := by
  have honDisk : disk.any (fun x => x.1 == fid && x.2 == ext) = true :=
    List.any_eq_true.mpr ⟨(fid, ext), hdisk, by simp⟩
  have hrows : (add_pin db disk dl now req).1.rows = db.rows ++
      [{ id := db.nextId, pin_id := req.pin_id, file_id := fid,
         file_extension := ext,
         pinterest_url := "https://pinterest.com/pin/" ++ req.pin_id ++ "/",
         original_url := req.original_url, source_date := now,
         rating := 0 }] ∧
      (add_pin db disk dl now req).2.2 = AddPinStatus.added := by
    unfold add_pin
    rw [hpin, hurl]
    simp only [Bool.false_eq_true, if_false, honDisk, Bool.not_true,
      Bool.false_and, if_true]
    refine ⟨(insert_pin_rows_of_not_exists hpin).1, ?_⟩
    trivial
  refine ⟨hrows.2, ⟨_, hrows.1, rfl, rfl⟩, ?_⟩
  rw [hrows.1, List.filter_append]
  have h1 : 0 < (db.rows.filter (fun x => x.file_id == fid)).length := by
    have : r ∈ db.rows.filter (fun x => x.file_id == fid) :=
      List.mem_filter.mpr ⟨hr, by simp [hfid]⟩
    exact List.length_pos.mpr (List.ne_nil_of_mem this)
  simp only [List.length_append]
  have h2 : (List.filter (fun x => x.file_id == fid)
      [({ id := db.nextId, pin_id := req.pin_id, file_id := fid,
          file_extension := ext,
          pinterest_url := "https://pinterest.com/pin/" ++ req.pin_id ++ "/",
          original_url := req.original_url, source_date := now,
          rating := 0 } : Row)]).length = 1 := by simp
  omega

/-- Witness for the amended C7 at the concrete counterexample input. -/
theorem c7_amended_no_file_id_precheck_witness :
    (pin_exists ⟨[⟨1, "P1", "7d76f602472b7acfb27cdbf4dae02489", "jpg", "u", "o", 100, 0⟩], 2⟩ "P2" = false ∧
      extract_file_id_server "https://x/7d76f602472b7acfb27cdbf4dae02489.jpg" =
        some ("7d76f602472b7acfb27cdbf4dae02489", "jpg") ∧
      ("7d76f602472b7acfb27cdbf4dae02489", "jpg") ∈
        [("7d76f602472b7acfb27cdbf4dae02489", "jpg")] ∧
      (⟨1, "P1", "7d76f602472b7acfb27cdbf4dae02489", "jpg", "u", "o", 100, 0⟩ : Row) ∈
        [(⟨1, "P1", "7d76f602472b7acfb27cdbf4dae02489", "jpg", "u", "o", 100, 0⟩ : Row)]) ∧
    ((add_pin ⟨[⟨1, "P1", "7d76f602472b7acfb27cdbf4dae02489", "jpg", "u", "o", 100, 0⟩], 2⟩
        [("7d76f602472b7acfb27cdbf4dae02489", "jpg")] true 999
        ⟨"P2", "https://x/7d76f602472b7acfb27cdbf4dae02489.jpg"⟩).2.2 =
      AddPinStatus.added ∧
    (∃ nr : Row,
      (add_pin ⟨[⟨1, "P1", "7d76f602472b7acfb27cdbf4dae02489", "jpg", "u", "o", 100, 0⟩], 2⟩
        [("7d76f602472b7acfb27cdbf4dae02489", "jpg")] true 999
        ⟨"P2", "https://x/7d76f602472b7acfb27cdbf4dae02489.jpg"⟩).1.rows =
        [⟨1, "P1", "7d76f602472b7acfb27cdbf4dae02489", "jpg", "u", "o", 100, 0⟩] ++ [nr] ∧
      nr.pin_id = "P2" ∧ nr.file_id = "7d76f602472b7acfb27cdbf4dae02489") ∧
    1 < ((add_pin ⟨[⟨1, "P1", "7d76f602472b7acfb27cdbf4dae02489", "jpg", "u", "o", 100, 0⟩], 2⟩
        [("7d76f602472b7acfb27cdbf4dae02489", "jpg")] true 999
        ⟨"P2", "https://x/7d76f602472b7acfb27cdbf4dae02489.jpg"⟩).1.rows.filter
          (fun x => x.file_id == "7d76f602472b7acfb27cdbf4dae02489")).length) :=
  ⟨⟨by decide, by decide, by decide, by decide⟩,
    c7_amended_no_file_id_precheck
      ⟨[⟨1, "P1", "7d76f602472b7acfb27cdbf4dae02489", "jpg", "u", "o", 100, 0⟩], 2⟩
      [("7d76f602472b7acfb27cdbf4dae02489", "jpg")] true 999
      ⟨"P2", "https://x/7d76f602472b7acfb27cdbf4dae02489.jpg"⟩
      "7d76f602472b7acfb27cdbf4dae02489" "jpg"
      ⟨1, "P1", "7d76f602472b7acfb27cdbf4dae02489", "jpg", "u", "o", 100, 0⟩
      (by decide) (by decide) (by decide) (by decide) (by decide)⟩

/-! ### Claim C9: the consolidation pass commits exactly once, at the end -/

theorem replay_ops :
    ∀ (ops : List DbOp) (p t : Db),
    List.foldl replayStep (p, t) (ops.map Event.op) = (p, applyOps t ops)
  | [], p, t => rfl
  | o :: ops, p, t => by
    simp only [List.map_cons, List.foldl_cons]
    exact replay_ops ops p (applyOp t o)

theorem applyOps_migrateOps :
    ∀ (fs : List String) (db : Db),
    applyOps db (migrateOps db fs) = fs.foldl consolidateGroup db
  | [], db => rfl
  | f :: fs, db => by
    simp only [migrateOps, List.foldl_cons]
    unfold applyOps
    rw [List.foldl_append]
    exact applyOps_migrateOps fs (consolidateGroup db f)

/-- Claim C9: the consolidation pass issues all its per-group statements and
then a single commit as the very last event; replaying any strict prefix of
the trace (an abort at any point before the commit) leaves the persisted
store exactly as it was, and replaying the whole trace persists exactly
`migrate_duplicates`. -/
theorem c9_consolidation_atomic (db : Db) (n : Nat)
    (hn : n < (migrateTrace db).length) :
    (replay db ((migrateTrace db).take n)).1 = db ∧
    (replay db (migrateTrace db)).1 = migrate_duplicates db := by
  by_cases hd : (dupFileIds db).isEmpty
  · constructor
    · unfold migrateTrace
      rw [if_pos hd]
      simp [replay]
    · unfold migrateTrace migrate_duplicates
      rw [if_pos hd, List.isEmpty_iff.mp hd]
      simp [replay]
  · have htr : migrateTrace db =
        (migrateOps db (dupFileIds db)).map Event.op ++ [Event.commit] := by
      unfold migrateTrace
      rw [if_neg hd]
    constructor
    · rw [htr] at hn ⊢
      have hlen : n ≤ ((migrateOps db (dupFileIds db)).map Event.op).length := by
        simp only [List.length_append, List.length_map, List.length_cons,
          List.length_nil] at hn
        simp only [List.length_map]
        omega
      rw [List.take_append_of_le_length hlen, ← List.map_take]
      unfold replay
      rw [replay_ops]
    · rw [htr]
      unfold replay
      rw [List.foldl_append, replay_ops]
      show applyOps db (migrateOps db (dupFileIds db)) = migrate_duplicates db
      rw [applyOps_migrateOps]
      rfl

/-- Witness for C9: a store with one duplicate pair; aborting after both
statements but before the commit preserves the original store. -/
theorem c9_consolidation_atomic_witness :
    2 < (migrateTrace ⟨[⟨1, "P1", "F1", "jpg", "u", "o", 100, 0⟩,
                        ⟨2, "P2", "F1", "jpg", "u", "o", 50, 0⟩], 3⟩).length ∧
    ((replay ⟨[⟨1, "P1", "F1", "jpg", "u", "o", 100, 0⟩,
               ⟨2, "P2", "F1", "jpg", "u", "o", 50, 0⟩], 3⟩
        ((migrateTrace ⟨[⟨1, "P1", "F1", "jpg", "u", "o", 100, 0⟩,
                         ⟨2, "P2", "F1", "jpg", "u", "o", 50, 0⟩], 3⟩).take 2)).1 =
      ⟨[⟨1, "P1", "F1", "jpg", "u", "o", 100, 0⟩,
        ⟨2, "P2", "F1", "jpg", "u", "o", 50, 0⟩], 3⟩ ∧
    (replay ⟨[⟨1, "P1", "F1", "jpg", "u", "o", 100, 0⟩,
              ⟨2, "P2", "F1", "jpg", "u", "o", 50, 0⟩], 3⟩
        (migrateTrace ⟨[⟨1, "P1", "F1", "jpg", "u", "o", 100, 0⟩,
                        ⟨2, "P2", "F1", "jpg", "u", "o", 50, 0⟩], 3⟩)).1 =
      migrate_duplicates ⟨[⟨1, "P1", "F1", "jpg", "u", "o", 100, 0⟩,
                           ⟨2, "P2", "F1", "jpg", "u", "o", 50, 0⟩], 3⟩) :=
  ⟨by decide,
    c9_consolidation_atomic
      ⟨[⟨1, "P1", "F1", "jpg", "u", "o", 100, 0⟩,
        ⟨2, "P2", "F1", "jpg", "u", "o", 50, 0⟩], 3⟩ 2 (by decide)⟩

/-! ### Claim C8: per-snapshot commit granularity and partial failure -/

theorem processSnapshot_of_err (orig : Originals) :
    ∀ (s : List Item) (db : Db) (st : Stats), Item.err ∈ s →
    processSnapshot orig db st s = none
  | [], _, _, herr => absurd herr (List.not_mem_nil _)
  | .err :: s, db, st, _ => rfl
  | .pin p :: s, db, st, herr => by
    have herr' : Item.err ∈ s := by
      rcases List.mem_cons.mp herr with h | h
      · exact absurd h (by simp)
      · exact h
    simp only [processSnapshot]
    exact processSnapshot_of_err orig s _ _ herr'

theorem processSnapshot_of_no_err (orig : Originals) :
    ∀ (s : List Item) (db : Db) (st : Stats), Item.err ∉ s →
    ∃ r, processSnapshot orig db st s = some r
  | [], db, st, _ => ⟨(db, st), rfl⟩
  | .err :: s, db, st, hne => absurd (List.mem_cons_self _ _) hne
  | .pin p :: s, db, st, hne => by
    simp only [processSnapshot]
    exact processSnapshot_of_no_err orig s _ _
      (fun h => hne (List.mem_cons_of_mem _ h))

theorem runImport_abort (orig : Originals) :
    ∀ (pre : List (List Item)) (post : List (List Item)) (sk : List Item)
      (db : Db) (st : Stats),
    (∀ s ∈ pre, Item.err ∉ s) → Item.err ∈ sk →
    runImport orig db st (pre ++ sk :: post) =
      ((runImport orig db st pre).1, none)
  | [], post, sk, db, st, _, herr => by
    simp only [List.nil_append, runImport]
    rw [processSnapshot_of_err orig sk _ _ herr]
  | s :: pre, post, sk, db, st, hne, herr => by
    have hs : Item.err ∉ s := hne s (List.mem_cons_self _ _)
    obtain ⟨r, hr⟩ := processSnapshot_of_no_err orig s db
      { st with html_files_processed := st.html_files_processed + 1 } hs
    simp only [List.cons_append, runImport, hr]
    exact runImport_abort orig pre post sk r.1 r.2
      (fun x hx => hne x (List.mem_cons_of_mem _ hx)) herr

/-- Claim C8: if the run fails while processing snapshot `k` (an
extraction/storage error event inside it), the resulting store is exactly
the store produced by importing snapshots `1..k-1` alone — their inserts are
committed snapshot by snapshot — and nothing from snapshot `k` (or later) is
committed; no statistics are returned for the aborted run. -/
theorem c8_partial_failure (orig : Originals) (db : Db)
    (pre post : List (List Item)) (sk : List Item)
    (hpre : ∀ s ∈ pre, Item.err ∉ s) (herr : Item.err ∈ sk) :
    import_pins orig db (pre ++ sk :: post) =
      ((import_pins orig db pre).1, none) :=
  runImport_abort orig pre post sk db {} hpre herr

/-- Witness for C8: the run aborts inside the second snapshot; the first
snapshot's insert stays committed, the second snapshot's insert (performed
before the error event) is rolled back, the third snapshot never runs. -/
theorem c8_partial_failure_witness :
    ((∀ s ∈ [[Item.pin ⟨"P1", "F1", "jpg", "u1", "o1", 5⟩]], Item.err ∉ s) ∧
      Item.err ∈ [Item.pin ⟨"P3", "F1", "jpg", "u3", "o3", 6⟩, Item.err]) ∧
    import_pins [("F1", "jpg")] ⟨[], 1⟩
      ([[Item.pin ⟨"P1", "F1", "jpg", "u1", "o1", 5⟩]] ++
        [Item.pin ⟨"P3", "F1", "jpg", "u3", "o3", 6⟩, Item.err] ::
        [[Item.pin ⟨"P2", "F1", "jpg", "u2", "o2", 7⟩]]) =
      ((import_pins [("F1", "jpg")] ⟨[], 1⟩
          [[Item.pin ⟨"P1", "F1", "jpg", "u1", "o1", 5⟩]]).1, none) :=
  ⟨⟨by decide, by decide⟩,
    c8_partial_failure [("F1", "jpg")] ⟨[], 1⟩
      [[Item.pin ⟨"P1", "F1", "jpg", "u1", "o1", 5⟩]]
      [[Item.pin ⟨"P2", "F1", "jpg", "u2", "o2", 7⟩]]
      [Item.pin ⟨"P3", "F1", "jpg", "u3", "o3", 6⟩, Item.err]
      (by decide) (by decide)⟩

/-! ### Claim C2: idempotence of the import pipeline -/

theorem pin_exists_of_rows_append {db db' : Db} {pid : String}
    (h : ∃ l, db'.rows = db.rows ++ l) (he : pin_exists db pid = true) :
    pin_exists db' pid = true := by
  obtain ⟨l, hl⟩ := h
  unfold pin_exists at he ⊢
  rw [hl, List.any_append, he]
  rfl

theorem processPin_rows_extend (orig : Originals) (db : Db) (st : Stats)
    (p : ParsedPin) : ∃ l, (processPin orig db st p).1.rows = db.rows ++ l := by
  unfold processPin
  by_cases h : file_exists_in_originals orig p.file_id p.file_extension
  · simp only [h, Bool.not_true, Bool.false_eq_true, if_false]
    by_cases h2 : (insert_pin db (pinOf p)).2
    · simp only [h2, if_true]
      exact insert_pin_rows_extend db (pinOf p)
    · simp only [h2, Bool.false_eq_true, if_false]
      exact insert_pin_rows_extend db (pinOf p)
  · simp only [h]
    exact ⟨[], by simp⟩

theorem processSnapshot_rows_extend (orig : Originals) :
    ∀ (s : List Item) (db : Db) (st : Stats) (db' : Db) (st' : Stats),
    processSnapshot orig db st s = some (db', st') →
    ∃ l, db'.rows = db.rows ++ l
  | [], db, st, db', st', h => by
    simp only [processSnapshot, Option.some.injEq, Prod.mk.injEq] at h
    exact ⟨[], by simp [← h.1]⟩
  | .err :: s, db, st, db', st', h => by simp [processSnapshot] at h
  | .pin p :: s, db, st, db', st', h => by
    simp only [processSnapshot] at h
    obtain ⟨l1, hl1⟩ := processPin_rows_extend orig db st p
    obtain ⟨l2, hl2⟩ := processSnapshot_rows_extend orig s _ _ db' st' h
    exact ⟨l1 ++ l2, by rw [hl2, hl1, List.append_assoc]⟩

theorem runImport_no_err (orig : Originals) :
    ∀ (snaps : List (List Item)) (db : Db) (st : Stats),
    (∀ s ∈ snaps, Item.err ∉ s) →
    (∃ l, (runImport orig db st snaps).1.rows = db.rows ++ l) ∧
    ∃ st', (runImport orig db st snaps).2 = some st'
  | [], db, st, _ => ⟨⟨[], by simp [runImport]⟩, _, rfl⟩
  | s :: snaps, db, st, hne => by
    obtain ⟨r, hr⟩ := processSnapshot_of_no_err orig s db
      { st with html_files_processed := st.html_files_processed + 1 }
      (hne s (List.mem_cons_self _ _))
    simp only [runImport, hr]
    obtain ⟨⟨l2, hl2⟩, hsome⟩ := runImport_no_err orig snaps r.1 r.2
      (fun x hx => hne x (List.mem_cons_of_mem _ hx))
    obtain ⟨l1, hl1⟩ := processSnapshot_rows_extend orig s db _ r.1 r.2 hr
    exact ⟨⟨l1 ++ l2, by rw [hl2, hl1, List.append_assoc]⟩, hsome⟩

theorem processPin_establishes (orig : Originals) (db : Db) (st : Stats)
    (p : ParsedPin)
    (hmedia : file_exists_in_originals orig p.file_id p.file_extension = true) :
    pin_exists (processPin orig db st p).1 p.pin_id = true := by
  unfold processPin
  simp only [hmedia, Bool.not_true, Bool.false_eq_true, if_false]
  by_cases h : pin_exists db p.pin_id
  · rw [@insert_pin_of_exists db (pinOf p) h]
    simp only [Bool.false_eq_true, if_false]
    exact h
  · have h' : pin_exists db (pinOf p).pin_id = false := by simpa using h
    obtain ⟨hrows, hflag⟩ := insert_pin_rows_of_not_exists h'
    rw [hflag]
    simp only [if_true]
    unfold pin_exists at h' ⊢
    rw [hrows, List.any_append]
    simp [pinOf]

theorem processSnapshot_covers (orig : Originals) :
    ∀ (s : List Item) (db : Db) (st : Stats) (db' : Db) (st' : Stats),
    processSnapshot orig db st s = some (db', st') →
    ∀ p : ParsedPin, Item.pin p ∈ s →
    file_exists_in_originals orig p.file_id p.file_extension = true →
    pin_exists db' p.pin_id = true
  | [], db, st, db', st', h, p, hp, _ => absurd hp (List.not_mem_nil _)
  | .err :: s, db, st, db', st', h, p, hp, _ => by simp [processSnapshot] at h
  | .pin q :: s, db, st, db', st', h, p, hp, hmedia => by
    simp only [processSnapshot] at h
    rcases List.mem_cons.mp hp with hpq | hp'
    · have hq : q = p := by injection hpq with h'; exact h'.symm
      subst hq
      have h1 := processPin_establishes orig db st q hmedia
      obtain ⟨l, hl⟩ := processSnapshot_rows_extend orig s _ _ db' st' h
      exact pin_exists_of_rows_append ⟨l, hl⟩ h1
    · exact processSnapshot_covers orig s _ _ db' st' h p hp' hmedia

theorem runImport_covers (orig : Originals) :
    ∀ (snaps : List (List Item)) (db : Db) (st : Stats),
    (∀ s ∈ snaps, Item.err ∉ s) →
    ∀ s ∈ snaps, ∀ p : ParsedPin, Item.pin p ∈ s →
    file_exists_in_originals orig p.file_id p.file_extension = true →
    pin_exists (runImport orig db st snaps).1 p.pin_id = true
  | [], db, st, _, s, hs, _, _, _ => absurd hs (List.not_mem_nil _)
  | s0 :: snaps, db, st, hne, s, hs, p, hp, hmedia => by
    obtain ⟨r, hr⟩ := processSnapshot_of_no_err orig s0 db
      { st with html_files_processed := st.html_files_processed + 1 }
      (hne s0 (List.mem_cons_self _ _))
    simp only [runImport, hr]
    rcases List.mem_cons.mp hs with hs0 | hs'
    · subst hs0
      have h1 := processSnapshot_covers orig s db _ r.1 r.2
        (by rw [hr]) p hp hmedia
      have h2 := (runImport_no_err orig snaps r.1 r.2
        (fun x hx => hne x (List.mem_cons_of_mem _ hx))).1
      exact pin_exists_of_rows_append h2 h1
    · exact runImport_covers orig snaps r.1 r.2
        (fun x hx => hne x (List.mem_cons_of_mem _ hx)) s hs' p hp hmedia

theorem processPin_second (orig : Originals) (db : Db) (st : Stats)
    (p : ParsedPin)
    (hcov : file_exists_in_originals orig p.file_id p.file_extension = true →
      pin_exists db p.pin_id = true) :
    (processPin orig db st p).1 = db ∧
    (processPin orig db st p).2.pins_imported = st.pins_imported ∧
    (processPin orig db st p).2.pins_found = st.pins_found + 1 ∧
    (processPin orig db st p).2.pins_skipped_duplicate +
      (processPin orig db st p).2.pins_skipped_no_file =
      st.pins_skipped_duplicate + st.pins_skipped_no_file + 1 := by
  unfold processPin
  by_cases hmedia : file_exists_in_originals orig p.file_id p.file_extension
  · have hex : pin_exists db (pinOf p).pin_id = true := hcov hmedia
    rw [insert_pin_of_exists hex]
    simp only [hmedia, Bool.not_true, Bool.false_eq_true, if_false]
    exact ⟨trivial, trivial, trivial, by omega⟩
  · simp only [hmedia]
    simp only [Bool.not_false, if_true]
    exact ⟨trivial, trivial, trivial, by omega⟩

theorem processSnapshot_second (orig : Originals) :
    ∀ (s : List Item) (db : Db) (st : Stats),
    (∀ p : ParsedPin, Item.pin p ∈ s →
      file_exists_in_originals orig p.file_id p.file_extension = true →
      pin_exists db p.pin_id = true) →
    Item.err ∉ s →
    ∃ st', processSnapshot orig db st s = some (db, st') ∧
      st'.pins_imported = st.pins_imported ∧
      st'.pins_found + st.pins_skipped_duplicate + st.pins_skipped_no_file =
        st.pins_found + st'.pins_skipped_duplicate + st'.pins_skipped_no_file
  | [], db, st, _, _ => ⟨st, rfl, rfl, by omega⟩
  | .err :: s, db, st, _, hne => absurd (List.mem_cons_self _ _) hne
  | .pin p :: s, db, st, hcov, hne => by
    obtain ⟨h1, h2, h3, h4⟩ := processPin_second orig db st p
      (hcov p (List.mem_cons_self _ _))
    obtain ⟨st', hps, hi, hf⟩ := processSnapshot_second orig s
      (processPin orig db st p).1 (processPin orig db st p).2
      (by rw [h1]; exact fun q hq => hcov q (List.mem_cons_of_mem _ hq))
      (fun h => hne (List.mem_cons_of_mem _ h))
    rw [h1] at hps
    simp only [processSnapshot]
    rw [h1]
    exact ⟨st', hps, by omega, by omega⟩

theorem runImport_second (orig : Originals) :
    ∀ (snaps : List (List Item)) (db : Db) (st : Stats),
    (∀ s ∈ snaps, ∀ p : ParsedPin, Item.pin p ∈ s →
      file_exists_in_originals orig p.file_id p.file_extension = true →
      pin_exists db p.pin_id = true) →
    (∀ s ∈ snaps, Item.err ∉ s) →
    ∃ st', runImport orig db st snaps = (db, some st') ∧
      st'.pins_imported = st.pins_imported ∧
      st'.pins_found + st.pins_skipped_duplicate + st.pins_skipped_no_file =
        st.pins_found + st'.pins_skipped_duplicate + st'.pins_skipped_no_file
  | [], db, st, _, _ => ⟨_, rfl, rfl, by simp⟩
  | s :: snaps, db, st, hcov, hne => by
    obtain ⟨st1, hps, hi1, hf1⟩ := processSnapshot_second orig s db
      { st with html_files_processed := st.html_files_processed + 1 }
      (hcov s (List.mem_cons_self _ _)) (hne s (List.mem_cons_self _ _))
    simp only [runImport, hps]
    obtain ⟨st2, hrun, hi2, hf2⟩ := runImport_second orig snaps db st1
      (fun x hx => hcov x (List.mem_cons_of_mem _ hx))
      (fun x hx => hne x (List.mem_cons_of_mem _ hx))
    exact ⟨st2, hrun, by simp at hi1 hf1; omega, by simp at hi1 hf1; omega⟩

/-- Claim C2 counterexample: one snapshot with one pin whose media file is
absent.  The second run leaves the store unchanged and imports nothing, but
the candidate is counted as missing-media again, not as a duplicate — so
"every candidate counted as a duplicate" fails. -/
theorem c2_idempotence_counterexample :
    (import_pins [] ⟨[], 1⟩ [[Item.pin ⟨"P1", "F1", "jpg", "u", "o", 100⟩]]).1 =
      ⟨[], 1⟩ ∧
    (import_pins []
        (import_pins [] ⟨[], 1⟩ [[Item.pin ⟨"P1", "F1", "jpg", "u", "o", 100⟩]]).1
        [[Item.pin ⟨"P1", "F1", "jpg", "u", "o", 100⟩]]).2 =
      some { html_files_processed := 1, pins_found := 1, pins_imported := 0,
             pins_skipped_duplicate := 0, pins_skipped_no_file := 1,
             total_pins_in_db := 0 } ∧
    ¬ (1 : Nat) = 0 :=
  ⟨by decide, by decide, by decide⟩

/-- Claim C2, amended: a second run over an unchanged snapshot set and media
directory leaves the store exactly as the first run left it and reports zero
pins imported; every candidate that passes the media-presence check is
counted as a duplicate, while candidates with missing media are counted as
missing-media again (`pins_found = pins_skipped_duplicate +
pins_skipped_no_file`, `pins_imported = 0`). -/
theorem c2_idempotence_amended (orig : Originals) (db0 : Db)
    (snaps : List (List Item)) (hne : ∀ s ∈ snaps, Item.err ∉ s) :
    (import_pins orig (import_pins orig db0 snaps).1 snaps).1 =
      (import_pins orig db0 snaps).1 ∧
    ∃ st2, (import_pins orig (import_pins orig db0 snaps).1 snaps).2 = some st2 ∧
      st2.pins_imported = 0 ∧
      st2.pins_found = st2.pins_skipped_duplicate + st2.pins_skipped_no_file := by
  have hcov := runImport_covers orig snaps db0 {} hne
  obtain ⟨st2, hrun, hi, hf⟩ := runImport_second orig snaps
    (import_pins orig db0 snaps).1 {}
    (fun s hs p hp hmedia => hcov s hs p hp hmedia) hne
  unfold import_pins at hrun ⊢
  rw [hrun]
  exact ⟨rfl, st2, rfl, by simpa using hi, by simp at hf; omega⟩

/-- Witness for the amended C2 at the §8 scenario (two overlapping
snapshots, one shared pin id, one shared file id). -/
theorem c2_idempotence_amended_witness :
    (∀ s ∈ [[Item.pin ⟨"P1", "F1", "jpg", "u1", "o1", 5⟩,
             Item.pin ⟨"P2", "F2", "jpg", "u2", "o2", 5⟩],
            [Item.pin ⟨"P3", "F1", "jpg", "u3", "o3", 6⟩,
             Item.pin ⟨"P2", "F2", "jpg", "u2", "o2", 6⟩]], Item.err ∉ s) ∧
    ((import_pins [("F1", "jpg"), ("F2", "jpg")]
        (import_pins [("F1", "jpg"), ("F2", "jpg")] ⟨[], 1⟩
          [[Item.pin ⟨"P1", "F1", "jpg", "u1", "o1", 5⟩,
            Item.pin ⟨"P2", "F2", "jpg", "u2", "o2", 5⟩],
           [Item.pin ⟨"P3", "F1", "jpg", "u3", "o3", 6⟩,
            Item.pin ⟨"P2", "F2", "jpg", "u2", "o2", 6⟩]]).1
        [[Item.pin ⟨"P1", "F1", "jpg", "u1", "o1", 5⟩,
          Item.pin ⟨"P2", "F2", "jpg", "u2", "o2", 5⟩],
         [Item.pin ⟨"P3", "F1", "jpg", "u3", "o3", 6⟩,
          Item.pin ⟨"P2", "F2", "jpg", "u2", "o2", 6⟩]]).1 =
      (import_pins [("F1", "jpg"), ("F2", "jpg")] ⟨[], 1⟩
        [[Item.pin ⟨"P1", "F1", "jpg", "u1", "o1", 5⟩,
          Item.pin ⟨"P2", "F2", "jpg", "u2", "o2", 5⟩],
         [Item.pin ⟨"P3", "F1", "jpg", "u3", "o3", 6⟩,
          Item.pin ⟨"P2", "F2", "jpg", "u2", "o2", 6⟩]]).1 ∧
    ∃ st2,
      (import_pins [("F1", "jpg"), ("F2", "jpg")]
        (import_pins [("F1", "jpg"), ("F2", "jpg")] ⟨[], 1⟩
          [[Item.pin ⟨"P1", "F1", "jpg", "u1", "o1", 5⟩,
            Item.pin ⟨"P2", "F2", "jpg", "u2", "o2", 5⟩],
           [Item.pin ⟨"P3", "F1", "jpg", "u3", "o3", 6⟩,
            Item.pin ⟨"P2", "F2", "jpg", "u2", "o2", 6⟩]]).1
        [[Item.pin ⟨"P1", "F1", "jpg", "u1", "o1", 5⟩,
          Item.pin ⟨"P2", "F2", "jpg", "u2", "o2", 5⟩],
         [Item.pin ⟨"P3", "F1", "jpg", "u3", "o3", 6⟩,
          Item.pin ⟨"P2", "F2", "jpg", "u2", "o2", 6⟩]]).2 = some st2 ∧
      st2.pins_imported = 0 ∧
      st2.pins_found = st2.pins_skipped_duplicate + st2.pins_skipped_no_file) :=
  ⟨by decide,
    c2_idempotence_amended [("F1", "jpg"), ("F2", "jpg")] ⟨[], 1⟩
      [[Item.pin ⟨"P1", "F1", "jpg", "u1", "o1", 5⟩,
        Item.pin ⟨"P2", "F2", "jpg", "u2", "o2", 5⟩],
       [Item.pin ⟨"P3", "F1", "jpg", "u3", "o3", 6⟩,
        Item.pin ⟨"P2", "F2", "jpg", "u2", "o2", 6⟩]] (by decide)⟩

/-! ### Claim C1: the consolidation pass on each duplicate group -/

theorem updRow_of_ne {oid : Nat} {newR : Int} {x : Row} (h : x.id ≠ oid) :
    updRow oid newR x = x := by
  unfold updRow
  rw [if_neg (by simp [h])]

theorem updRow_of_eq {oid : Nat} {newR : Int} {x : Row} (h : x.id = oid) :
    updRow oid newR x = { x with rating := newR } := by
  unfold updRow
  rw [if_pos (by simp [h])]

theorem updRow_id (oid : Nat) (newR : Int) (x : Row) :
    (updRow oid newR x).id = x.id := by
  unfold updRow
  split <;> rfl

theorem updRow_file_id (oid : Nat) (newR : Int) (x : Row) :
    (updRow oid newR x).file_id = x.file_id := by
  unfold updRow
  split <;> rfl

theorem notDeleted_eq_true {rest : List Row} {z : Row}
    (h : ∀ r ∈ rest, z.id ≠ r.id) : notDeleted rest z = true := by
  unfold notDeleted
  have hany : (rest.any fun r => z.id == r.id) = false := by
    by_cases hc : (rest.any fun r => z.id == r.id) = true
    · obtain ⟨r, hr, hid⟩ := List.any_eq_true.mp hc
      exact absurd (beq_iff_eq.mp hid) (h r hr)
    · exact Bool.eq_false_iff.mpr (fun hh => hc hh)
  rw [hany]
  rfl

theorem notDeleted_eq_false {rest : List Row} {z : Row} (r : Row)
    (hr : r ∈ rest) (h : z.id = r.id) : notDeleted rest z = false := by
  unfold notDeleted
  have hany : (rest.any fun r => z.id == r.id) = true :=
    List.any_eq_true.mpr ⟨r, hr, beq_iff_eq.mpr h⟩
  rw [hany]
  rfl

theorem applyOps_deletes :
    ∀ (l : List Row) (db : Db),
    (applyOps db (l.map (fun r => DbOp.deleteRow r.id))).rows =
      db.rows.filter (notDeleted l)
  | [], db => by
    show db.rows = db.rows.filter (notDeleted [])
    have h : ∀ x ∈ db.rows, notDeleted [] x = true := fun x _ =>
      notDeleted_eq_true (fun r hr => absurd hr (List.not_mem_nil r))
    rw [List.filter_eq_self.mpr h]
  | r :: l, db => by
    simp only [List.map_cons]
    show (applyOps (applyOp db (DbOp.deleteRow r.id))
      (l.map (fun r => DbOp.deleteRow r.id))).rows = _
    rw [applyOps_deletes l (applyOp db (DbOp.deleteRow r.id))]
    show (db.rows.filter (fun x => !(x.id == r.id))).filter (notDeleted l) =
      db.rows.filter (notDeleted (r :: l))
    rw [List.filter_filter]
    apply List.filter_congr
    intro x _
    unfold notDeleted
    rw [List.any_cons]
    cases hxr : x.id == r.id <;> cases hl : l.any (fun s => x.id == s.id) <;> rfl

theorem consolidateGroup_rows_eq (db : Db) (f : String) (o : Row)
    (rest : List Row) (hsort : sortRows (rowsOf db f) = o :: rest) :
    (consolidateGroup db f).rows =
      (db.rows.map (updRow o.id (o.rating + rest.length))).filter
        (notDeleted rest) := by
  unfold consolidateGroup consolidateOps
  rw [hsort]
  show (applyOps (applyOp db (DbOp.setRating o.id (o.rating + rest.length)))
    (rest.map (fun r => DbOp.deleteRow r.id))).rows = _
  rw [applyOps_deletes]
  rfl

theorem consolidateGroup_eq_self (db : Db) (f : String)
    (hsort : sortRows (rowsOf db f) = []) : consolidateGroup db f = db := by
  unfold consolidateGroup consolidateOps
  rw [hsort]
  rfl

theorem filter_fileEq_comm (f : String) (u : Row → Row) (q : Row → Bool)
    (hpres : ∀ x, (u x).file_id = x.file_id) (rows : List Row) :
    ((rows.map u).filter q).filter (fun x => x.file_id == f) =
      ((rows.filter (fun x => x.file_id == f)).map u).filter q := by
  rw [List.filter_map, List.filter_map, List.filter_filter, List.filter_map,
    List.filter_filter]
  congr 1
  apply List.filter_congr
  intro a _
  simp only [Function.comp_apply, hpres a]
  cases (a.file_id == f) <;> cases q (u a) <;> rfl

theorem map_filter_identity (u : Row → Row) (q : Row → Bool) :
    ∀ L : List Row, (∀ x ∈ L, u x = x ∧ q x = true) → (L.map u).filter q = L
  | [], _ => rfl
  | x :: L, h => by
    obtain ⟨hu, hq⟩ := h x (List.mem_cons_self x L)
    simp only [List.map_cons]
    rw [hu, List.filter_cons_of_pos hq]
    exact congrArg (List.cons x)
      (map_filter_identity u q L (fun y hy => h y (List.mem_cons_of_mem _ hy)))

theorem map_filter_drop (oid : Nat) (newR : Int) (rest : List Row)
    (hne : ∀ y ∈ rest, y.id ≠ oid) :
    ∀ L : List Row, (∀ x ∈ L, x ∈ rest) →
    (L.map (updRow oid newR)).filter (notDeleted rest) = []
  | [], _ => rfl
  | x :: L, h => by
    have hx : x ∈ rest := h x (List.mem_cons_self x L)
    have hdrop : notDeleted rest x = false := notDeleted_eq_false x hx rfl
    simp only [List.map_cons]
    rw [updRow_of_ne (hne x hx),
      List.filter_cons_of_neg (Bool.eq_false_iff.mp hdrop)]
    exact map_filter_drop oid newR rest hne L
      (fun y hy => h y (List.mem_cons_of_mem _ hy))

theorem group_eval (o : Row) (newR : Int) (rest : List Row)
    (hne : ∀ y ∈ rest, y.id ≠ o.id) :
    ∀ G : List Row, G.Nodup → o ∈ G → (∀ x ∈ G, x = o ∨ x ∈ rest) →
    (G.map (updRow o.id newR)).filter (notDeleted rest) =
      [{ o with rating := newR }]
  | [], _, ho, _ => absurd ho (List.not_mem_nil o)
  | x :: G, hnd, ho, h1 => by
    by_cases hxo : x = o
    · subst hxo
      have hoG : x ∉ G := (List.nodup_cons.mp hnd).1
      have hkeep : notDeleted rest ({ x with rating := newR } : Row) = true :=
        notDeleted_eq_true (fun r hr hh => hne r hr hh.symm)
      simp only [List.map_cons]
      rw [updRow_of_eq rfl, List.filter_cons_of_pos hkeep]
      rw [map_filter_drop x.id newR rest (fun y hy => hne y hy) G
        (fun y hy => by
          rcases h1 y (List.mem_cons_of_mem _ hy) with h | h
          · exact absurd (h ▸ hy) hoG
          · exact h)]
    · have hx : x ∈ rest := by
        rcases h1 x (List.mem_cons_self x G) with h | h
        · exact absurd h hxo
        · exact h
      have hdrop : notDeleted rest x = false := notDeleted_eq_false x hx rfl
      simp only [List.map_cons]
      rw [updRow_of_ne (hne x hx),
        List.filter_cons_of_neg (Bool.eq_false_iff.mp hdrop)]
      have ho' : o ∈ G := by
        rcases List.mem_cons.mp ho with h | h
        · exact absurd h.symm hxo
        · exact h
      exact group_eval o newR rest hne G hnd.of_cons ho'
        (fun y hy => h1 y (List.mem_cons_of_mem _ hy))

theorem consolidateGroup_self (db : Db) (f : String) (o : Row)
    (rest : List Row) (hids : (db.rows.map Row.id).Nodup)
    (hsort : sortRows (rowsOf db f) = o :: rest) :
    rowsOf (consolidateGroup db f) f =
      [{ o with rating := o.rating + rest.length }] := by
  have hperm : (o :: rest).Perm (rowsOf db f) :=
    hsort ▸ List.perm_insertionSort rowRel (rowsOf db f)
  have hsubG : (rowsOf db f).Sublist db.rows := List.filter_sublist db.rows
  have hGids : ((rowsOf db f).map Row.id).Nodup := (hsubG.map Row.id).nodup hids
  have hGnd : (rowsOf db f).Nodup := hGids.of_map
  have hcons_ids : ((o :: rest).map Row.id).Nodup :=
    ((hperm.map Row.id).nodup_iff).mpr hGids
  have hne : ∀ y ∈ rest, y.id ≠ o.id := by
    intro y hy hcon
    exact (List.nodup_cons.mp hcons_ids).1 (List.mem_map.mpr ⟨y, hy, hcon⟩)
  have ho : o ∈ rowsOf db f := hperm.mem_iff.mp (List.mem_cons_self o rest)
  have h1 : ∀ x ∈ rowsOf db f, x = o ∨ x ∈ rest := fun x hx =>
    List.mem_cons.mp (hperm.mem_iff.mpr hx)
  show ((consolidateGroup db f).rows).filter (fun x => x.file_id == f) = _
  rw [consolidateGroup_rows_eq db f o rest hsort,
    filter_fileEq_comm f _ _ (updRow_file_id o.id (o.rating + rest.length))]
  exact group_eval o (o.rating + rest.length) rest hne (rowsOf db f) hGnd ho h1

theorem consolidateGroup_other (db : Db) (g f : String)
    (hids : (db.rows.map Row.id).Nodup) (hgf : g ≠ f) :
    rowsOf (consolidateGroup db g) f = rowsOf db f := by
  cases hsort : sortRows (rowsOf db g) with
  | nil => rw [consolidateGroup_eq_self db g hsort]
  | cons oldest rest =>
    have hperm : (oldest :: rest).Perm (rowsOf db g) :=
      hsort ▸ List.perm_insertionSort rowRel (rowsOf db g)
    have hold : oldest ∈ rowsOf db g :=
      hperm.mem_iff.mp (List.mem_cons_self _ _)
    have hrest : ∀ r ∈ rest, r ∈ rowsOf db g := fun r hr =>
      hperm.mem_iff.mp (List.mem_cons_of_mem _ hr)
    show ((consolidateGroup db g).rows).filter (fun x => x.file_id == f) = _
    rw [consolidateGroup_rows_eq db g oldest rest hsort,
      filter_fileEq_comm f _ _
        (updRow_file_id oldest.id (oldest.rating + rest.length))]
    apply map_filter_identity
    intro x hx
    obtain ⟨hxrows, hxf⟩ := List.mem_filter.mp hx
    have hxfid : x.file_id = f := beq_iff_eq.mp hxf
    have hxo : x.id ≠ oldest.id := by
      intro hcon
      have hxold : x = oldest :=
        List.inj_on_of_nodup_map hids hxrows (List.mem_filter.mp hold).1 hcon
      have hog : oldest.file_id = g := beq_iff_eq.mp (List.mem_filter.mp hold).2
      rw [hxold, hog] at hxfid
      exact hgf hxfid
    refine ⟨updRow_of_ne hxo, notDeleted_eq_true ?_⟩
    intro r hr hcon
    have hxr : x = r := List.inj_on_of_nodup_map hids hxrows
      (List.mem_filter.mp (hrest r hr)).1 hcon
    have hrg : r.file_id = g := beq_iff_eq.mp (List.mem_filter.mp (hrest r hr)).2
    rw [hxr, hrg] at hxfid
    exact hgf hxfid

theorem consolidateGroup_ids_nodup (db : Db) (g : String)
    (hids : (db.rows.map Row.id).Nodup) :
    ((consolidateGroup db g).rows.map Row.id).Nodup := by
  cases hsort : sortRows (rowsOf db g) with
  | nil => rw [consolidateGroup_eq_self db g hsort]; exact hids
  | cons oldest rest =>
    rw [consolidateGroup_rows_eq db g oldest rest hsort]
    have hsub : (((db.rows.map (updRow oldest.id (oldest.rating +
        rest.length))).filter (notDeleted rest)).map Row.id).Sublist
        ((db.rows.map (updRow oldest.id (oldest.rating + rest.length))).map
          Row.id) :=
      (List.filter_sublist _).map Row.id
    have h2 : (db.rows.map (updRow oldest.id (oldest.rating + rest.length))).map
        Row.id = db.rows.map Row.id := by
      rw [List.map_map]
      exact List.map_congr_left (fun a _ =>
        updRow_id oldest.id (oldest.rating + rest.length) a)
    rw [h2] at hsub
    exact hsub.nodup hids

theorem foldl_consolidate_other (f : String) :
    ∀ (fs : List String) (db' : Db), f ∉ fs → (db'.rows.map Row.id).Nodup →
    rowsOf (fs.foldl consolidateGroup db') f = rowsOf db' f
  | [], _, _, _ => rfl
  | g :: fs, db', hnf, hids => by
    have hgf : g ≠ f := fun h => hnf (h ▸ List.mem_cons_self g fs)
    simp only [List.foldl_cons]
    rw [foldl_consolidate_other f fs (consolidateGroup db' g)
      (fun h => hnf (List.mem_cons_of_mem _ h))
      (consolidateGroup_ids_nodup db' g hids)]
    exact consolidateGroup_other db' g f hids hgf

theorem foldl_consolidate_group (db : Db) (f : String) (o : Row)
    (rest : List Row) (hsort : sortRows (rowsOf db f) = o :: rest) :
    ∀ (fs : List String) (db' : Db), fs.Nodup → f ∈ fs →
    (db'.rows.map Row.id).Nodup → rowsOf db' f = rowsOf db f →
    rowsOf (fs.foldl consolidateGroup db') f =
      [{ o with rating := o.rating + rest.length }]
  | [], _, _, hf, _, _ => absurd hf (List.not_mem_nil f)
  | g :: fs, db', hnd, hf, hids', hgroup => by
    simp only [List.foldl_cons]
    by_cases hfg : f = g
    · subst hfg
      have hsort' : sortRows (rowsOf db' f) = o :: rest := by
        rw [hgroup]; exact hsort
      rw [foldl_consolidate_other f fs _ (List.nodup_cons.mp hnd).1
        (consolidateGroup_ids_nodup db' f hids')]
      exact consolidateGroup_self db' f o rest hids' hsort'
    · have hgf : g ≠ f := fun h => hfg h.symm
      have hf' : f ∈ fs := by
        rcases List.mem_cons.mp hf with h | h
        · exact absurd h hfg
        · exact h
      exact foldl_consolidate_group db f o rest hsort fs (consolidateGroup db' g)
        hnd.of_cons hf' (consolidateGroup_ids_nodup db' g hids')
        (by rw [consolidateGroup_other db' g f hids' hgf]; exact hgroup)

/-- Claim C1: for every `file_id` group of size greater than one, one run of
the consolidation pass keeps exactly one survivor — the first record of the
group ordered by `(source_date ASC, id ASC)` (it precedes every group member
in that order) — sets its rating to its old rating plus (group size − 1),
and deletes every other record of the group. -/
theorem c1_consolidation (db : Db) (f : String)
    (hids : (db.rows.map Row.id).Nodup)
    (hsize : 1 < (rowsOf db f).length) :
    ∃ o rest, sortRows (rowsOf db f) = o :: rest ∧
      rest.length + 1 = (rowsOf db f).length ∧
      (∀ x ∈ rowsOf db f, rowRel o x) ∧
      rowsOf (migrate_duplicates db) f =
        [{ o with rating := o.rating + rest.length }] := by
  cases hsort : sortRows (rowsOf db f) with
  | nil =>
    have hperm : ([] : List Row).Perm (rowsOf db f) := by
      rw [← hsort]
      exact List.perm_insertionSort rowRel (rowsOf db f)
    have hlen := hperm.length_eq
    simp only [List.length_nil] at hlen
    omega
  | cons o rest =>
    have hperm : (o :: rest).Perm (rowsOf db f) :=
      hsort ▸ List.perm_insertionSort rowRel (rowsOf db f)
    refine ⟨o, rest, rfl, ?_, ?_, ?_⟩
    · have hl := hperm.length_eq
      simp only [List.length_cons] at hl
      exact hl
    · intro x hx
      have hsorted : (o :: rest).Sorted rowRel := by
        rw [← hsort]
        exact List.sorted_insertionSort rowRel (rowsOf db f)
      rcases List.mem_cons.mp (hperm.mem_iff.mpr hx) with h | h
      · rw [h]
        exact Or.inr ⟨rfl, le_refl o.id⟩
      · exact List.rel_of_sorted_cons hsorted x h
    · have hGne : rowsOf db f ≠ [] := by
        intro hcon
        rw [hcon] at hsize
        simp at hsize
      obtain ⟨r, hr⟩ := List.exists_mem_of_ne_nil (rowsOf db f) hGne
      have hmem : f ∈ (db.rows.map (fun r => r.file_id)).dedup := by
        apply List.mem_dedup.mpr
        apply List.mem_map.mpr
        obtain ⟨hrr, hrf⟩ := List.mem_filter.mp hr
        exact ⟨r, hrr, beq_iff_eq.mp hrf⟩
      have hfdup : f ∈ dupFileIds db :=
        List.mem_filter.mpr ⟨hmem, decide_eq_true hsize⟩
      have hnd : (dupFileIds db).Nodup := (List.nodup_dedup _).filter _
      exact foldl_consolidate_group db f o rest hsort (dupFileIds db) db
        hnd hfdup hids rfl

/-- Witness for C1: a `file_id` referenced by exactly 3 records, each with
rating 0, ends with a single surviving record whose rating is 2 (and the
survivor is the oldest by `(source_date, id)`). -/
theorem c1_consolidation_witness :
    ((([⟨1, "P1", "F1", "jpg", "u", "o", 100, 0⟩,
        ⟨2, "P2", "F1", "jpg", "u", "o", 50, 0⟩,
        ⟨3, "P3", "F1", "jpg", "u", "o", 100, 0⟩] : List Row).map Row.id).Nodup ∧
      1 < (rowsOf ⟨[⟨1, "P1", "F1", "jpg", "u", "o", 100, 0⟩,
                    ⟨2, "P2", "F1", "jpg", "u", "o", 50, 0⟩,
                    ⟨3, "P3", "F1", "jpg", "u", "o", 100, 0⟩], 4⟩ "F1").length) ∧
    (∃ o rest,
      sortRows (rowsOf ⟨[⟨1, "P1", "F1", "jpg", "u", "o", 100, 0⟩,
                         ⟨2, "P2", "F1", "jpg", "u", "o", 50, 0⟩,
                         ⟨3, "P3", "F1", "jpg", "u", "o", 100, 0⟩], 4⟩ "F1") =
          o :: rest ∧
      rest.length + 1 =
        (rowsOf ⟨[⟨1, "P1", "F1", "jpg", "u", "o", 100, 0⟩,
                  ⟨2, "P2", "F1", "jpg", "u", "o", 50, 0⟩,
                  ⟨3, "P3", "F1", "jpg", "u", "o", 100, 0⟩], 4⟩ "F1").length ∧
      (∀ x ∈ rowsOf ⟨[⟨1, "P1", "F1", "jpg", "u", "o", 100, 0⟩,
                      ⟨2, "P2", "F1", "jpg", "u", "o", 50, 0⟩,
                      ⟨3, "P3", "F1", "jpg", "u", "o", 100, 0⟩], 4⟩ "F1",
        rowRel o x) ∧
      rowsOf (migrate_duplicates ⟨[⟨1, "P1", "F1", "jpg", "u", "o", 100, 0⟩,
                                   ⟨2, "P2", "F1", "jpg", "u", "o", 50, 0⟩,
                                   ⟨3, "P3", "F1", "jpg", "u", "o", 100, 0⟩], 4⟩)
          "F1" = [{ o with rating := o.rating + rest.length }]) ∧
    rowsOf (migrate_duplicates ⟨[⟨1, "P1", "F1", "jpg", "u", "o", 100, 0⟩,
                                 ⟨2, "P2", "F1", "jpg", "u", "o", 50, 0⟩,
                                 ⟨3, "P3", "F1", "jpg", "u", "o", 100, 0⟩], 4⟩)
        "F1" = [⟨2, "P2", "F1", "jpg", "u", "o", 50, 2⟩] :=
  ⟨⟨by decide, by decide⟩,
    c1_consolidation ⟨[⟨1, "P1", "F1", "jpg", "u", "o", 100, 0⟩,
                       ⟨2, "P2", "F1", "jpg", "u", "o", 50, 0⟩,
                       ⟨3, "P3", "F1", "jpg", "u", "o", 100, 0⟩], 4⟩ "F1"
      (by decide) (by decide),
    by decide⟩
